import Mathlib

/-!
Verification development for the SQL execution core of an embedded,
append-only database (package `sql` of the repository, together with the
SQL lexer found in the same repository).

The definitions below are a shallow embedding of the Go source:
pure Go functions become Lean functions, `(value, error)` returns become
`Except Err`, Go maps become association lists with a deterministic but
otherwise faithful update discipline, and machine integers become
`Int`/`Nat` (`int64` arithmetic in the embedded fragment never overflows:
the only arithmetic performed is incrementing an auto-increment counter
and comparing values).

A few auxiliary pieces of the repository (value encodings, the catalog
lookup helpers and the key-value store) are not part of the provided
source files; those definitions carry a doc comment starting with
`Modelled from the spec:` and follow the specification text.
-/

namespace ImmuSql

/-! ## Value types and errors -/

abbrev SQLValueType := String

def IntegerType : SQLValueType := "INTEGER"

def BooleanType : SQLValueType := "BOOLEAN"

def VarcharType : SQLValueType := "VARCHAR"

def BLOBType : SQLValueType := "BLOB"

def TimestampType : SQLValueType := "TIMESTAMP"

def AnyType : SQLValueType := "ANY"

/-- Error identities of the engine (Go sentinel errors, plus the two
store-level sentinels `ErrKeyNotFound` / `ErrKeyAlreadyExists`). -/
inductive Err
  | ErrNotComparableValues
  | ErrKeyNotFound
  | ErrKeyAlreadyExists
  | ErrMaxKeyLengthExceeded
  | ErrPKCanNotBeNull
  | ErrNotNullableColumnCannotBeNull
  | ErrNoValueForAutoIncrementalColumn
  | ErrDuplicatedColumn
  | ErrInvalidNumberOfValues
  | ErrColumnDoesNotExist
  | ErrTableDoesNotExist
  | ErrNoDatabaseSelected
  | ErrHavingClauseRequiresGroupClause
  | ErrLimitedGroupBy
  | ErrLimitedOrderBy
  | ErrNoAvailableIndex
  | ErrInvalidValue
  | ErrInvalidCondition
  | ErrMissingParameter
  | ErrUnexpected
  | ErrIllegalArguments
  | ErrInvalidTypes
  | ErrDivisionByZero
  deriving DecidableEq

/-- Comparison operators (`CmpOperator` constants `EQ..GE`). -/
inductive CmpOperator
  | EQ
  | NE
  | LT
  | LE
  | GT
  | GE
  deriving DecidableEq

/-- Logical operators (`LogicOperator` constants `AND`, `OR`). -/
inductive LogicOperator
  | AND
  | OR
  deriving DecidableEq

/-! ## Typed values

`TypedValue` implementations in the source are `NullValue`, `Number`,
`Varchar`, `Bool` and `Blob`; we collect them in one inductive. -/

inductive TV
  | nullV (t : SQLValueType)
  | num (v : Int)
  | varchar (s : String)
  | boolV (b : Bool)
  | blob (bs : List Nat)
  deriving DecidableEq

/-- `Type()` of a typed value (`NullValue.Type` returns the stored type). -/
def TV.type : TV → SQLValueType
  | .nullV t => t
  | .num _ => IntegerType
  | .varchar _ => VarcharType
  | .boolV _ => BooleanType
  | .blob _ => BLOBType

/-- Whether `Value()` is the nil interface; only `NullValue.Value` is nil. -/
def TV.isNull : TV → Bool
  | .nullV _ => true
  | _ => false

/-- `bytes.Compare` on byte slices (lexicographic, result in -1/0/1). -/
def listCompare : List Nat → List Nat → Int
  | [], [] => 0
  | [], _ :: _ => -1
  | _ :: _, [] => 1
  | a :: as, b :: bs => if a < b then -1 else if b < a then 1 else listCompare as bs

/-- `bytes.Compare` on the UTF-8 bytes of two strings.  UTF-8 byte order
agrees with code-point lexicographic order, which is `String` order. -/
def strCompare (a b : String) : Int :=
  if a = b then 0 else if a < b then -1 else 1

/-- `Compare` of a typed value against another, following each `Compare`
method of the source: `NullValue.Compare` first rejects a concrete type
mismatch, then reports equality against a null and `-1` against any
non-null; the concrete types report `1` against a null, reject a type
mismatch, and otherwise compare their payloads. -/
def TV.Compare : TV → TV → Except Err Int
  | .nullV t, val =>
      if t ≠ AnyType ∧ val.type ≠ AnyType ∧ t ≠ val.type then
        .error .ErrNotComparableValues
      else if val.isNull then .ok 0
      else .ok (-1)
  | .num a, val =>
      if val.isNull then .ok 1
      else if val.type ≠ IntegerType then .error .ErrNotComparableValues
      else
        match val with
        | .num b => .ok (if a = b then 0 else if a > b then 1 else -1)
        | _ => .error .ErrUnexpected
  | .varchar s, val =>
      if val.isNull then .ok 1
      else if val.type ≠ VarcharType then .error .ErrNotComparableValues
      else
        match val with
        | .varchar r => .ok (strCompare s r)
        | _ => .error .ErrUnexpected
  | .boolV b, val =>
      if val.isNull then .ok 1
      else if val.type ≠ BooleanType then .error .ErrNotComparableValues
      else
        match val with
        | .boolV r => .ok (if b = r then 0 else if b then 1 else -1)
        | _ => .error .ErrUnexpected
  | .blob bs, val =>
      if val.isNull then .ok 1
      else if val.type ≠ BLOBType then .error .ErrNotComparableValues
      else
        match val with
        | .blob rs => .ok (listCompare bs rs)
        | _ => .error .ErrUnexpected

/-- `cmpSatisfiesOp`: whether a comparison result satisfies an operator. -/
def cmpSatisfiesOp (cmp : Int) (op : CmpOperator) : Bool :=
  if cmp = 0 then decide (op = .EQ ∨ op = .LE ∨ op = .GE)
  else if cmp = -1 then decide (op = .NE ∨ op = .LT ∨ op = .LE)
  else if cmp = 1 then decide (op = .NE ∨ op = .GT ∨ op = .GE)
  else false

/-! ## Encodings

`EncodeAsKey`, `EncodeValue`, `EncodeID` and the engine's `mapKey` are part
of the repository but outside the provided source files; they are modelled
from the specification (sections 4.1 and 6). -/

def PKIndexID : Nat := 0

def PIndexPrefix : String := "P."

def SIndexPrefix : String := "S."

def UIndexPrefix : String := "U."

/-- Modelled from the spec: `maxKeyLen` is an implementation-defined upper
bound on a single encoded key fragment; its exact value is irrelevant to
the claims and is fixed here. -/
def maxKeyLen : Nat := 256

def EncIDLen : Nat := 4

def EncLenLen : Nat := 4

/-- Big-endian bytes of `n` (low `width` bytes). -/
def beBytes (width n : Nat) : List Nat :=
  (List.range width).map (fun i => n / 256 ^ (width - 1 - i) % 256)

/-- Modelled from the spec: id encoding is 4 bytes big-endian. -/
def EncodeID (id : Nat) : List Nat := beBytes 4 id

/-- Bytes of a string; the embedding identifies characters with bytes
(all strings appearing in the claims are ASCII, where the two agree). -/
def strBytes (s : String) : List Nat := s.data.map Char.toNat

/-- Modelled from the spec: `EncodeAsKey(value, type, maxLen)` produces a
sortable key fragment: INTEGER/TIMESTAMP as 8 bytes big-endian with the
sign bit flipped, BOOLEAN as one byte, VARCHAR/BLOB right-padded with `0`
to `maxLen` followed by a 4-byte big-endian length suffix; it fails with
`ErrMaxKeyLengthExceeded` when the fragment would exceed the bound, and
with `ErrInvalidValue` on a value/type mismatch (a nil value included). -/
def EncodeAsKey (v : TV) (colType : SQLValueType) (maxLen : Nat) : Except Err (List Nat) :=
  match v with
  | .nullV _ => .error .ErrInvalidValue
  | .num n =>
      if colType = IntegerType ∨ colType = TimestampType then
        .ok (beBytes 8 ((n + 2 ^ 63) % 2 ^ 64).toNat)
      else .error .ErrInvalidValue
  | .boolV b =>
      if colType = BooleanType then .ok [if b then 1 else 0]
      else .error .ErrInvalidValue
  | .varchar s =>
      if colType = VarcharType then
        let bs := strBytes s
        if maxLen + 4 > maxKeyLen ∨ bs.length > maxLen then .error .ErrMaxKeyLengthExceeded
        else .ok (bs ++ List.replicate (maxLen - bs.length) 0 ++ beBytes 4 bs.length)
      else .error .ErrInvalidValue
  | .blob bs =>
      if colType = BLOBType then
        if maxLen + 4 > maxKeyLen ∨ bs.length > maxLen then .error .ErrMaxKeyLengthExceeded
        else .ok (bs ++ List.replicate (maxLen - bs.length) 0 ++ beBytes 4 bs.length)
      else .error .ErrInvalidValue

/-- Modelled from the spec: `EncodeValue` is the self-delimiting payload
form: a 4-byte big-endian length followed by the raw bytes. -/
def EncodeValue (v : TV) (colType : SQLValueType) (maxLen : Nat) : Except Err (List Nat) :=
  match v with
  | .nullV _ => .error .ErrInvalidValue
  | .num n =>
      if colType = IntegerType ∨ colType = TimestampType then
        .ok (beBytes 4 8 ++ beBytes 8 (n % 2 ^ 64).toNat)
      else .error .ErrInvalidValue
  | .boolV b =>
      if colType = BooleanType then .ok (beBytes 4 1 ++ [if b then 1 else 0])
      else .error .ErrInvalidValue
  | .varchar s =>
      if colType = VarcharType then
        let bs := strBytes s
        if bs.length > maxLen then .error .ErrMaxKeyLengthExceeded
        else .ok (beBytes 4 bs.length ++ bs)
      else .error .ErrInvalidValue
  | .blob bs =>
      if colType = BLOBType then
        if bs.length > maxLen then .error .ErrMaxKeyLengthExceeded
        else .ok (beBytes 4 bs.length ++ bs)
      else .error .ErrInvalidValue

/-- Modelled from the spec: the engine's `mapKey(prefix, chunks...)`
concatenates the ASCII map prefix with the encoded chunks. -/
def mapKey (pfx : String) (chunks : List (List Nat)) : List Nat :=
  strBytes pfx ++ chunks.flatten

/-! ## Catalog entities

The catalog types (`Column`, `Index`, `Table`, `Database`) and their
lookup helpers live outside the provided source files; structure and
behaviour are modelled from the specification (section 3). -/

/-- Modelled from the spec: a column of a table. -/
structure Column where
  id : Nat
  colName : String
  colType : SQLValueType
  maxLen : Nat
  autoIncrement : Bool
  notNull : Bool
  deriving DecidableEq

/-- Modelled from the spec: an index of a table; index id `0` is the
primary index. -/
structure Index where
  id : Nat
  unique : Bool
  cols : List Column
  deriving DecidableEq

def Index.IsPrimary (i : Index) : Bool := i.id == PKIndexID

def Index.IsUnique (i : Index) : Bool := i.unique

/-- Modelled from the spec: a table of a database.  `indexes` lists the
primary index together with all secondary indexes. -/
structure Table where
  dbID : Nat
  dbName : String
  id : Nat
  name : String
  cols : List Column
  indexes : List Index
  primaryIndex : Index
  autoIncrementPK : Bool
  maxPK : Int
  deriving DecidableEq

/-- Modelled from the spec: `GetColumnByName` resolves a column by name,
failing with `ErrColumnDoesNotExist`. -/
def Table.GetColumnByName (t : Table) (n : String) : Except Err Column :=
  match t.cols.find? (fun c => c.colName == n) with
  | some c => .ok c
  | none => .error .ErrColumnDoesNotExist

/-- Modelled from the spec: `indexesByColID` yields the indexes of the
table that cover the given column. -/
def Table.indexesByColID (t : Table) (colID : Nat) : List Index :=
  t.indexes.filter (fun idx => idx.cols.any (fun c => c.id == colID))

/-- Modelled from the spec: a database of the catalog. -/
structure Database where
  id : Nat
  name : String
  tables : List Table
  deriving DecidableEq

/-- Modelled from the spec: `GetTableByName` resolves a table by name,
failing with `ErrTableDoesNotExist`. -/
def Database.GetTableByName (db : Database) (n : String) : Except Err Table :=
  match db.tables.find? (fun t => t.name == n) with
  | some t => .ok t
  | none => .error .ErrTableDoesNotExist

/-! ## Value ranges (`typedValueRange` and friends) -/

/-- One inclusive/exclusive semi-bound (`typedValueSemiRange`). -/
structure typedValueSemiRange where
  val : TV
  inclusive : Bool
  deriving DecidableEq

/-- A per-column range: optional low and high semi-bounds
(`typedValueRange`). -/
structure typedValueRange where
  lRange : Option typedValueSemiRange
  hRange : Option typedValueSemiRange
  deriving DecidableEq

/-- `maxSemiRange`: the larger bound, inclusive only when both are. -/
def maxSemiRange (or1 or2 : typedValueSemiRange) : Except Err typedValueSemiRange := do
  let r ← or1.val.Compare or2.val
  let maxVal := if r < 0 then or2.val else or1.val
  .ok { val := maxVal, inclusive := or1.inclusive && or2.inclusive }

/-- `minSemiRange`: the smaller bound, inclusive when either is. -/
def minSemiRange (or1 or2 : typedValueSemiRange) : Except Err typedValueSemiRange := do
  let r ← or1.val.Compare or2.val
  let minVal := if r > 0 then or2.val else or1.val
  .ok { val := minVal, inclusive := or1.inclusive || or2.inclusive }

/-- `typedValueRange.refineWith` (intersection of two ranges). -/
def typedValueRange.refineWith (r refining : typedValueRange) : Except Err typedValueRange := do
  let l ←
    match r.lRange, refining.lRange with
    | none, x => .ok x
    | some a, none => .ok (some a)
    | some a, some b => do
        let m ← maxSemiRange a b
        .ok (some m)
  let h ←
    match r.hRange, refining.hRange with
    | none, x => .ok x
    | some a, none => .ok (some a)
    | some a, some b => do
        let m ← minSemiRange a b
        .ok (some m)
  .ok { lRange := l, hRange := h }

/-- `typedValueRange.extendWith` (union of two ranges). -/
def typedValueRange.extendWith (r extending : typedValueRange) : Except Err typedValueRange := do
  let l ←
    match r.lRange, extending.lRange with
    | none, _ => .ok none
    | _, none => .ok none
    | some a, some b => do
        let m ← minSemiRange a b
        .ok (some m)
  let h ←
    match r.hRange, extending.hRange with
    | none, _ => .ok none
    | _, none => .ok none
    | some a, some b => do
        let m ← maxSemiRange a b
        .ok (some m)
  .ok { lRange := l, hRange := h }

/-- `rangesByColID`, the Go map from column id to range, realised as an
association list with unique keys. -/
abbrev RangeMap := List (Nat × typedValueRange)

/-- Map update: replace the entry when present, append it otherwise. -/
def rmSet (m : RangeMap) (k : Nat) (r : typedValueRange) : RangeMap :=
  if (m.lookup k).isSome then m.map (fun p => if p.1 = k then (k, r) else p)
  else m ++ [(k, r)]

/-- The fresh range contributed by one comparison operator and constant
(the `switch` of `updateRangeFor`); `NE` contributes nothing. -/
def rangeForCmp (cmp : CmpOperator) (val : TV) : Option typedValueRange :=
  match cmp with
  | .EQ => some { lRange := some { val := val, inclusive := true },
                  hRange := some { val := val, inclusive := true } }
  | .LT => some { lRange := none, hRange := some { val := val, inclusive := false } }
  | .LE => some { lRange := none, hRange := some { val := val, inclusive := true } }
  | .GT => some { lRange := some { val := val, inclusive := false }, hRange := none }
  | .GE => some { lRange := some { val := val, inclusive := true }, hRange := none }
  | .NE => none

/-- `updateRangeFor`: install the new range for the column, refining any
range already recorded; `NE` leaves the map untouched. -/
def updateRangeFor (colID : Nat) (val : TV) (cmp : CmpOperator) (m : RangeMap) :
    Except Err RangeMap :=
  match rangeForCmp cmp val with
  | none => .ok m
  | some newRange =>
      match m.lookup colID with
      | none => .ok (m ++ [(colID, newRange)])
      | some currRange => do
          let refined ← currRange.refineWith newRange
          .ok (rmSet m colID refined)

/-! ## Expressions

The embedded fragment of `ValueExp`: constants (`NullValue`, `Number`,
`Varchar`, `Bool`, `Blob` — each of which substitutes and reduces to
itself), bound parameters (`Param`), column selectors (`ColSelector`),
comparisons (`CmpBoolExp`), binary boolean expressions (`BinBoolExp`) and
negation (`NotBoolExp`). -/

inductive ValueExp
  | constV (v : TV)
  | paramE (id : String)
  | colSel (db table col : String)
  | cmpE (op : CmpOperator) (left right : ValueExp)
  | binE (op : LogicOperator) (left right : ValueExp)
  | notE (e : ValueExp)
  deriving DecidableEq

/-- A row as seen by `reduce`: values keyed by encoded selector. -/
abbrev Row := List (String × TV)

/-- `EncodeSelector` builds the canonical selector key. -/
def EncodeSelector (aggFn db table col : String) : String :=
  aggFn ++ "(" ++ db ++ "." ++ table ++ "." ++ col ++ ")"

/-- `ColSelector.resolve` against the implicit database/table; the
aggregate function of a plain column selector is empty. -/
def resolveSel (db table col implicitDB implicitTable : String) :
    String × String × String × String :=
  ("", (if db = "" then implicitDB else db), (if table = "" then implicitTable else table), col)

/-- `isConstant` per expression variant. -/
def ValueExp.isConstant : ValueExp → Bool
  | .constV _ => true
  | .paramE _ => true
  | .colSel _ _ _ => false
  | .cmpE _ l r => l.isConstant && r.isConstant
  | .binE _ l r => l.isConstant && r.isConstant
  | .notE e => e.isConstant

/-- `substitute`: replace parameter placeholders by typed literals;
missing parameters fail with `ErrMissingParameter` (a nil parameter is
presented by the caller as a `NullValue` of type ANY, as in
`Param.substitute`). -/
def ValueExp.substitute (params : List (String × TV)) : ValueExp → Except Err ValueExp
  | .constV v => .ok (.constV v)
  | .paramE id =>
      match params.lookup id with
      | some v => .ok (.constV v)
      | none => .error .ErrMissingParameter
  | .colSel db t c => .ok (.colSel db t c)
  | .cmpE op l r => do
      let rl ← l.substitute params
      let rr ← r.substitute params
      .ok (.cmpE op rl rr)
  | .binE op l r => do
      let rl ← l.substitute params
      let rr ← r.substitute params
      .ok (.binE op rl rr)
  | .notE e => do
      let re ← e.substitute params
      .ok (.notE re)

/-- `reduce`: evaluate an expression against an optional row.  Constants
reduce to themselves; an unsubstituted parameter is `ErrUnexpected`; a
column selector looks its encoded selector up in the row
(`ErrInvalidValue` without a row, `ErrColumnDoesNotExist` when absent);
comparisons combine `Compare` with `cmpSatisfiesOp`; `AND`/`OR` require
boolean operands (`ErrInvalidValue` otherwise); `NOT` requires a boolean
operand (`ErrInvalidCondition` otherwise). -/
def ValueExp.reduce (row : Option Row) (implicitDB implicitTable : String) :
    ValueExp → Except Err TV
  | .constV v => .ok v
  | .paramE _ => .error .ErrUnexpected
  | .colSel db t c =>
      match row with
      | none => .error .ErrInvalidValue
      | some r =>
          let s := resolveSel db t c implicitDB implicitTable
          match r.lookup (EncodeSelector s.1 s.2.1 s.2.2.1 s.2.2.2) with
          | some v => .ok v
          | none => .error .ErrColumnDoesNotExist
  | .cmpE op l r => do
      let vl ← l.reduce row implicitDB implicitTable
      let vr ← r.reduce row implicitDB implicitTable
      let c ← vl.Compare vr
      .ok (.boolV (cmpSatisfiesOp c op))
  | .binE op l r => do
      let vl ← l.reduce row implicitDB implicitTable
      let vr ← r.reduce row implicitDB implicitTable
      match vl, vr with
      | .boolV bl, .boolV br =>
          match op with
          | .AND => .ok (.boolV (bl && br))
          | .OR => .ok (.boolV (bl || br))
      | _, _ => .error .ErrInvalidValue
  | .notE e => do
      let v ← e.reduce row implicitDB implicitTable
      match v with
      | .boolV b => .ok (.boolV (!b))
      | _ => .error .ErrInvalidCondition

/-- The matching closure inside `CmpBoolExp.selectorRanges`.  Note that it
inspects the expression's own `left`/`right` fields (`bleft`, `bright`) on
both attempts and only returns its second argument: this is faithful to
the source, where the closure captures `bexp` instead of using its
parameters. -/
def cmpMatching (bleft bright : ValueExp) (_l r : ValueExp) : Option ((String × String × String) × ValueExp) :=
  match bleft with
  | .colSel db t col => if bright.isConstant then some ((db, t, col), r) else none
  | _ => none

/-- The merge loop of `BinBoolExp.selectorRanges` for `OR`: every column
present in both side maps is extended and written back; columns present
on only one side are dropped. -/
def orMerge (m : RangeMap) (lR rR : RangeMap) : Except Err RangeMap :=
  match lR with
  | [] => .ok m
  | (colID, lr) :: rest =>
      match rR.lookup colID with
      | none => orMerge m rest rR
      | some rr => do
          let merged ← lr.extendWith rr
          orMerge (rmSet m colID merged) rest rR

/-- `selectorRanges`: accumulate per-column ranges from the predicate.
Constants, parameters, bare selectors and `NOT` contribute nothing; a
comparison contributes through `updateRangeFor` when it matches
`column-selector op constant` (with the matching-closure behaviour of the
source); `AND` threads the map through both sides; `OR` derives each
side's ranges from an empty map and merges them per column. -/
def ValueExp.selectorRanges (table : Table) (asTable : String) (params : List (String × TV)) :
    ValueExp → RangeMap → Except Err RangeMap
  | .constV _, m => .ok m
  | .paramE _, m => .ok m
  | .colSel _ _ _, m => .ok m
  | .notE _, m => .ok m
  | .cmpE op l r, m =>
      match (cmpMatching l r l r).orElse (fun _ => cmpMatching l r r l) with
      | none => .ok m
      | some ((sdb, st, scol), c) =>
          let db2 := if sdb = "" then table.dbName else sdb
          let t2 := if st = "" then table.name else st
          if db2 ≠ table.dbName ∨ t2 ≠ asTable then .ok m
          else
            match table.GetColumnByName scol with
            | .error e => .error e
            | .ok column =>
                match c.substitute params with
                | .error .ErrMissingParameter => .ok m
                | .error e => .error e
                | .ok val => do
                    let rval ← val.reduce none table.dbName table.name
                    updateRangeFor column.id rval op m
  | .binE .AND l r, m => do
      let m1 ← l.selectorRanges table asTable params m
      r.selectorRanges table asTable params m1
  | .binE .OR l r, m => do
      let lRanges ← l.selectorRanges table asTable params []
      let rRanges ← r.selectorRanges table asTable params []
      orMerge m lRanges rRanges

/-! ## Staged key-value writes and constraints -/

/-- The constraint attached to a staged KV write: the store-provided
`MustExist` or the engine-supplied `deletedOrMustNotExist` closure. -/
inductive KVConstraint
  | MustExist
  | DeletedOrMustNotExist
  deriving DecidableEq

/-- A staged KV write (`store.KV`). -/
structure KV where
  key : List Nat
  value : List Nat
  constraint : Option KVConstraint
  deriving DecidableEq

/-- The `deletedOrMustNotExist` constraint function: given the current
value of the key and the lookup error (if any), it accepts a missing key,
propagates any other lookup error, accepts a present value whose leading
byte is `1`, and otherwise rejects with `ErrKeyAlreadyExists`. -/
def deletedOrMustNotExist (currValue : List Nat) (err : Option Err) : Option Err :=
  if err = some .ErrKeyNotFound then none
  else
    match err with
    | some e => some e
    | none =>
        if currValue.length > 0 ∧ currValue.head? = some 1 then none
        else some .ErrKeyAlreadyExists

/-- The result of compiling a statement, restricted to the parts produced
by `UPSERT`/`INSERT` (`ces` stays empty for them and is omitted). -/
structure TxSummary where
  des : List KV
  updatedRows : Nat
  lastInsertedPKs : List (String × Int)
  deriving DecidableEq

/-- Update-or-insert on the `lastInsertedPKs` map. -/
def lipkSet (l : List (String × Int)) (k : String) (v : Int) : List (String × Int) :=
  if (l.lookup k).isSome then l.map (fun p => if p.1 = k then (k, v) else p)
  else l ++ [(k, v)]

/-! ## UPSERT / INSERT compilation -/

/-- `UpsertIntoStmt`; the table reference is resolved by the caller and
the referenced table is passed to `compileUsing` directly. -/
structure UpsertIntoStmt where
  isInsert : Bool
  cols : List String
  rows : List (List ValueExp)
  deriving DecidableEq

/-- Modelled from the spec: the outcome of `Engine.fetchPKRow`, as a
function of the encoded primary key (`none` stands for `ErrNoMoreRows`,
`some` for the current row's values by column id). -/
abbrev StoreOracle := List Nat → Option (List (Nat × TV))

/-- Values by column id, as built for one row. -/
abbrev ValMap := List (Nat × TV)

/-- The loop of `UpsertIntoStmt.validate`: map each named column to its
position, rejecting duplicates. -/
def validateCols (table : Table) : List String → Nat → List (Nat × Nat) → Except Err (List (Nat × Nat))
  | [], _, acc => .ok acc
  | c :: rest, i, acc => do
      let col ← table.GetColumnByName c
      if (acc.lookup col.id).isSome then .error .ErrDuplicatedColumn
      else validateCols table rest (i + 1) (acc ++ [(col.id, i)])

def UpsertIntoStmt.validate (stmt : UpsertIntoStmt) (table : Table) : Except Err (List (Nat × Nat)) :=
  validateCols table stmt.cols 0 []

/-- The per-column loop of `UpsertIntoStmt.compileUsing` building
`valuesByColID` for one row (the Go source iterates the column map; the
embedding processes columns in declaration order): an unspecified
`notNull` column fails, a specified auto-increment column of an `INSERT`
fails with `ErrNoValueForAutoIncrementalColumn`, and each specified value
is substituted, reduced, and dropped when null (failing when `notNull`). -/
def buildRowValues (isInsert : Bool) (dbName tableName : String) (params : List (String × TV))
    (selPos : List (Nat × Nat)) (rowVals : List ValueExp) :
    List Column → ValMap → Except Err ValMap
  | [], acc => .ok acc
  | col :: rest, acc =>
      match selPos.lookup col.id with
      | none =>
          if col.notNull then .error .ErrNotNullableColumnCannotBeNull
          else buildRowValues isInsert dbName tableName params selPos rowVals rest acc
      | some colPos =>
          if isInsert && col.autoIncrement then .error .ErrNoValueForAutoIncrementalColumn
          else
            match rowVals.get? colPos with
            | none => .error .ErrUnexpected
            | some cVal => do
                let val ← cVal.substitute params
                let rval ← val.reduce none dbName tableName
                if rval.isNull then
                  if col.notNull then .error .ErrNotNullableColumnCannotBeNull
                  else buildRowValues isInsert dbName tableName params selPos rowVals rest acc
                else buildRowValues isInsert dbName tableName params selPos rowVals rest (acc ++ [(col.id, rval)])

/-- Encoding of the primary-key columns (`pkEncVals`): concatenated
`EncodeAsKey` fragments, each checked against `maxKeyLen`; a missing
value fails with `ErrPKCanNotBeNull`. -/
def encodePKCols (values : ValMap) : List Column → Except Err (List Nat)
  | [] => .ok []
  | col :: rest =>
      match values.lookup col.id with
      | none => .error .ErrPKCanNotBeNull
      | some rval => do
          let encVal ← EncodeAsKey rval col.colType col.maxLen
          if encVal.length > maxKeyLen then .error .ErrMaxKeyLengthExceeded
          else do
            let restEnc ← encodePKCols values rest
            .ok (encVal ++ restEnc)

def pkEncValsFor (table : Table) (values : ValMap) : Except Err (List Nat) :=
  encodePKCols values table.primaryIndex.cols

/-- The per-column loop of `Engine.deleteIndexEntriesFor`: compare the
current and the new value of each index column (a missing value stands
for a `NullValue` of the column type), accumulate whether the whole index
key is unchanged, and collect the key fragments of the current values
(whose encoding errors are discarded by the source). -/
def delIdxCols (currVals newVals : ValMap) : List Column → Except Err (Bool × List (List Nat))
  | [] => .ok (true, [])
  | col :: rest => do
      let currVal := (currVals.lookup col.id).getD (.nullV col.colType)
      let newVal := (newVals.lookup col.id).getD (.nullV col.colType)
      let r ← currVal.Compare newVal
      let res ← delIdxCols currVals newVals rest
      let encVal := ((EncodeAsKey currVal col.colType col.maxLen).toOption).getD []
      .ok ((r == 0) && res.1, encVal :: res.2)

/-- `Engine.deleteIndexEntriesFor`: for each secondary index either mark
it reusable (old and new key equal) or stage a tombstone entry, keyed by
the old column values, whose value carries the deletion flag `1`. -/
def deleteIndexEntriesFor (tableDbID tableID : Nat) (pkEncVals : List Nat)
    (currVals newVals : ValMap) : List Index → Except Err (List Nat × List KV)
  | [] => .ok ([], [])
  | index :: rest =>
      if index.IsPrimary then deleteIndexEntriesFor tableDbID tableID pkEncVals currVals newVals rest
      else do
        let res ← delIdxCols currVals newVals index.cols
        let tailRes ← deleteIndexEntriesFor tableDbID tableID pkEncVals currVals newVals rest
        if res.1 then .ok (index.id :: tailRes.1, tailRes.2)
        else
          let kv : KV :=
            if index.IsUnique then
              { key := mapKey UIndexPrefix ([ EncodeID tableDbID, EncodeID tableID, EncodeID index.id] ++ res.2),
                value := 1 :: pkEncVals,
                constraint := none }
            else
              { key := mapKey SIndexPrefix ([ EncodeID tableDbID, EncodeID tableID, EncodeID index.id] ++ res.2 ++ [pkEncVals]),
                value := [1],
                constraint := none }
          .ok (tailRes.1, kv :: tailRes.2)

/-- Encoding of the index columns for a new secondary entry (a missing
value stands for a `NullValue` of the column type); here encoding errors
propagate and each fragment is checked against `maxKeyLen`. -/
def encodeIdxCols (values : ValMap) : List Column → Except Err (List (List Nat))
  | [] => .ok []
  | col :: rest => do
      let rval := (values.lookup col.id).getD (.nullV col.colType)
      let encVal ← EncodeAsKey rval col.colType col.maxLen
      if encVal.length > maxKeyLen then .error .ErrMaxKeyLengthExceeded
      else do
        let restEnc ← encodeIdxCols values rest
        .ok (encVal :: restEnc)

/-- The secondary-index loop at the end of `UpsertIntoStmt.compileUsing`:
skip the primary index and every reusable slot; a unique index gets a
`U.`-prefixed key, the value `0 ∥ pkEncVals` and the
`deletedOrMustNotExist` constraint; a non-unique index gets an
`S.`-prefixed key ending in `pkEncVals`, the value `0` and no
constraint. -/
def secondaryEntriesFor (table : Table) (values : ValMap) (pkEncVals : List Nat)
    (reusable : List Nat) : List Index → Except Err (List KV)
  | [] => .ok []
  | index :: rest =>
      if index.IsPrimary then secondaryEntriesFor table values pkEncVals reusable rest
      else if reusable.contains index.id then secondaryEntriesFor table values pkEncVals reusable rest
      else do
        let encs ← encodeIdxCols values index.cols
        let restEntries ← secondaryEntriesFor table values pkEncVals reusable rest
        let kv : KV :=
          if index.IsUnique then
            { key := mapKey UIndexPrefix ([ EncodeID table.dbID, EncodeID table.id, EncodeID index.id] ++ encs),
              value := 0 :: pkEncVals,
              constraint := some .DeletedOrMustNotExist }
          else
            { key := mapKey SIndexPrefix ([ EncodeID table.dbID, EncodeID table.id, EncodeID index.id] ++ encs ++ [pkEncVals]),
              value := [0],
              constraint := none }
        .ok (kv :: restEntries)

/-- The row-payload loop: for each non-null column in declaration order,
the 4-byte column id followed by `EncodeValue`. -/
def encodePayloadCols (values : ValMap) : List Column → Except Err (List Nat)
  | [] => .ok []
  | col :: rest =>
      match values.lookup col.id with
      | none => encodePayloadCols values rest
      | some rval => do
          let encVal ← EncodeValue rval col.colType col.maxLen
          let restEnc ← encodePayloadCols values rest
          .ok (beBytes 4 col.id ++ encVal ++ restEnc)

/-- The constraint attached to the primary-index entry, as a function of
the statement kind and the auto-increment flag (the two `if` statements
of the source). -/
def pkConstraintOf (isInsert autoIncrementPK : Bool) : Option KVConstraint :=
  if isInsert && !autoIncrementPK then some KVConstraint.DeletedOrMustNotExist
  else if !isInsert && autoIncrementPK then some KVConstraint.MustExist
  else none

/-- The second half of the per-row body of `UpsertIntoStmt.compileUsing`,
from the encoding of the primary key onwards: encode the key, fetch the
current row and stage tombstones (for a non-insert over a table with
secondary indexes), encode the payload, emit the primary entry and the
new secondary entries. -/
def compileRowRest (stmt : UpsertIntoStmt) (table : Table) (store : StoreOracle)
    (values : ValMap) (lastPK : Option Int) (maxPK : Int) :
    Except Err (List KV × Option Int × Int) := do
  let pkEncVals ← pkEncValsFor table values
  let delRes ←
    if !stmt.isInsert && table.indexes.length > 1 then
      match store pkEncVals with
      | some currVals => deleteIndexEntriesFor table.dbID table.id pkEncVals currVals values table.indexes
      | none => .ok (([], []) : List Nat × List KV)
    else .ok (([], []) : List Nat × List KV)
  let payload ← encodePayloadCols values table.cols
  let pke : KV :=
    { key := mapKey PIndexPrefix [ EncodeID table.dbID, EncodeID table.id, EncodeID table.primaryIndex.id, pkEncVals],
      value := 0 :: beBytes 4 values.length ++ payload,
      constraint := pkConstraintOf stmt.isInsert table.autoIncrementPK }
  let secs ← secondaryEntriesFor table values pkEncVals delRes.1 table.indexes
  .ok (delRes.2 ++ pke :: secs, lastPK, maxPK)

/-- The body of `UpsertIntoStmt.compileUsing` for one row: build the
values, inject the auto-increment primary key (for an `INSERT` into an
auto-increment table, incrementing `maxPK` by one and recording it as the
last inserted primary key), then stage the row's entries.  Returns the
staged entries, the recorded last-inserted primary key (if any) and the
updated `maxPK`. -/
def compileRow (stmt : UpsertIntoStmt) (table : Table) (params : List (String × TV))
    (store : StoreOracle) (selPos : List (Nat × Nat)) (maxPK : Int) (rowVals : List ValueExp) :
    Except Err (List KV × Option Int × Int) := do
  let values0 ← buildRowValues stmt.isInsert table.dbName table.name params selPos rowVals table.cols []
  let inj ←
    if stmt.isInsert && table.autoIncrementPK then
      match table.primaryIndex.cols with
      | pkCol :: _ =>
          .ok ((values0 ++ [(pkCol.id, TV.num (maxPK + 1))], some (maxPK + 1), maxPK + 1) :
            ValMap × Option Int × Int)
      | [] => .error Err.ErrUnexpected
    else .ok (values0, none, maxPK)
  compileRowRest stmt table store inj.1 inj.2.1 inj.2.2

/-- The row loop of `UpsertIntoStmt.compileUsing`, threading the summary
and the table's `maxPK` counter through the rows. -/
def compileRows (stmt : UpsertIntoStmt) (table : Table) (params : List (String × TV))
    (store : StoreOracle) (selPos : List (Nat × Nat)) :
    List (List ValueExp) → TxSummary → Int → Except Err (TxSummary × Int)
  | [], summary, maxPK => .ok (summary, maxPK)
  | row :: rest, summary, maxPK =>
      if row.length ≠ stmt.cols.length then .error .ErrInvalidNumberOfValues
      else do
        let res ← compileRow stmt table params store selPos maxPK row
        let summary' : TxSummary :=
          { des := summary.des ++ res.1,
            updatedRows := summary.updatedRows + 1,
            lastInsertedPKs :=
              match res.2.1 with
              | some pk => lipkSet summary.lastInsertedPKs table.name pk
              | none => summary.lastInsertedPKs }
        compileRows stmt table params store selPos rest summary' res.2.2

/-- `UpsertIntoStmt.compileUsing`, with the referenced table resolved and
the store access abstracted by `StoreOracle`.  Returns the summary and
the table's updated `maxPK`. -/
def UpsertIntoStmt.compileUsing (stmt : UpsertIntoStmt) (table : Table)
    (params : List (String × TV)) (store : StoreOracle) : Except Err (TxSummary × Int) := do
  let selPos ← stmt.validate table
  compileRows stmt table params store selPos stmt.rows
    { des := [], updatedRows := 0, lastInsertedPKs := [] } table.maxPK

/-! ## SELECT compilation checks -/

/-- An `ORDER BY` item (`OrdCol`): the selected column and direction. -/
structure OrdCol where
  col : String
  descOrder : Bool
  deriving DecidableEq

/-- The part of `SelectStmt` that `compileUsing` inspects.  `dsTable` is
`some name` when the data source is a table reference and `none` when it
is a nested select; `groupBy` keeps the column names (a missing clause is
the empty list, matching the nil slice). -/
structure SelectStmt where
  groupBy : List String
  having : Option ValueExp
  orderBy : List OrdCol
  dsTable : Option String
  deriving DecidableEq

/-- `SelectStmt.compileUsing` (its validity checks; on success the source
returns a fresh empty summary, modelled as `Unit`): fail with
`ErrNoDatabaseSelected` without a database, `ErrHavingClauseRequiresGroupClause`
for `HAVING` without `GROUP BY`, `ErrLimitedGroupBy` for more than one
group column, `ErrLimitedOrderBy` for more than one order column, for an
order column over a non-table data source, and for an order column not
covered by any index; column and table lookups propagate their errors. -/
def SelectStmt.compileUsing (stmt : SelectStmt) (implicitDB : Option Database) :
    Except Err Unit :=
  match implicitDB with
  | none => .error .ErrNoDatabaseSelected
  | some db =>
      if stmt.groupBy.isEmpty ∧ stmt.having.isSome then .error .ErrHavingClauseRequiresGroupClause
      else if stmt.groupBy.length > 1 then .error .ErrLimitedGroupBy
      else if stmt.orderBy.length > 1 then .error .ErrLimitedOrderBy
      else
        match stmt.orderBy with
        | [] => .ok ()
        | oc :: _ =>
            match stmt.dsTable with
            | none => .error .ErrLimitedOrderBy
            | some tname => do
                let table ← db.GetTableByName tname
                let col ← table.GetColumnByName oc.col
                if (table.indexesByColID col.id).isEmpty then .error .ErrLimitedOrderBy
                else .ok ()

/-! ## Lexer keyword matching -/

/-- The tokens returned by the lexer fragment: one per reserved word,
plus `TYPE` and `ID`, both of which carry the recognised word. -/
inductive Token
  | CREATE
  | USE
  | DATABASE
  | TABLE
  | INDEX
  | ON
  | ALTER
  | ADD
  | COLUMN
  | TYPE (id : String)
  | ID (id : String)
  deriving DecidableEq

/-- The `reservedWords` map of the lexer. -/
def reservedWords : List (String × Token) :=
  [("CREATE", .CREATE), ("USE", .USE), ("DATABASE", .DATABASE), ("TABLE", .TABLE),
   ("INDEX", .INDEX), ("ON", .ON), ("ALTER", .ALTER), ("ADD", .ADD), ("COLUMN", .COLUMN)]

/-- The `types` set of the lexer. -/
def typeNames : List String :=
  ["INTEGER", "BOOLEAN", "STRING", "BLOB", "TIMESTAMP"]

/-- `isType`. -/
def isType (id : String) : Bool := typeNames.contains id

/-- The word-classification tail of `lexer.Lex`: a scanned word is first
checked against the type names, then looked up among the reserved words,
and otherwise lexed as an identifier.  No case normalization occurs. -/
def lexWordToken (id : String) : Token :=
  if isType id then .TYPE id
  else
    match reservedWords.lookup id with
    | some tkn => tkn
    | none => .ID id

/-- `isLetter` of the lexer, over byte values. -/
def isLetterB (c : Nat) : Bool :=
  (97 ≤ c && c ≤ 122) || (65 ≤ c && c ≤ 90) || c == 95

/-- `isNumber` of the lexer, over byte values. -/
def isNumberB (c : Nat) : Bool := 48 ≤ c && c ≤ 57

/-- `lexer.readWord`: the maximal run of letters and digits. -/
def readWord : List Nat → List Nat × List Nat
  | [] => ([], [])
  | c :: rest =>
      if isLetterB c || isNumberB c then
        let res := readWord rest
        (c :: res.1, res.2)
      else ([], c :: rest)

/-- Bytes back to a string (the lexer builds `lval.id` this way). -/
def natsToString (l : List Nat) : String := String.mk (l.map Char.ofNat)

/-- The identifier branch of `lexer.Lex` on a byte input that starts with
a letter: read the word and classify it. -/
def lexIdent (input : List Nat) : Option (Token × List Nat) :=
  match input with
  | [] => none
  | ch :: rest =>
      if isLetterB ch then
        let res := readWord rest
        some (lexWordToken (natsToString (ch :: res.1)), res.2)
      else none

/-! ## Specification-side characterizations

The following definitions restate, per index, what the write path is
claimed to do; the theorems below compare them with the loops embedded
from the source. -/

/-- Whether a comparison result is a successful equality. -/
def cmpIsZero (c : Except Err Int) : Bool :=
  match c with
  | .ok r => r == 0
  | .error _ => false

/-- The value of a column in a value map, with the null default. -/
def colVal (vals : ValMap) (col : Column) : TV :=
  (vals.lookup col.id).getD (.nullV col.colType)

/-- Whether all index columns compare equal between the current and the
new values. -/
def idxColsEqual (currVals newVals : ValMap) (cols : List Column) : Bool :=
  cols.all (fun col => cmpIsZero ((colVal currVals col).Compare (colVal newVals col)))

/-- The key fragment of one index column, with encoding errors discarded
(as the source does for tombstone keys). -/
def idxEncVal (vals : ValMap) (col : Column) : List Nat :=
  ((EncodeAsKey (colVal vals col) col.colType col.maxLen).toOption).getD []

/-- The tombstone entry staged for one secondary index, keyed by the
current (old) column values, with the deletion flag set. -/
def tombKVFor (tableDbID tableID : Nat) (pkEncVals : List Nat) (currVals : ValMap)
    (index : Index) : KV :=
  if index.IsUnique then
    { key := mapKey UIndexPrefix ([ EncodeID tableDbID, EncodeID tableID, EncodeID index.id] ++ index.cols.map (idxEncVal currVals)),
      value := 1 :: pkEncVals,
      constraint := none }
  else
    { key := mapKey SIndexPrefix ([ EncodeID tableDbID, EncodeID tableID, EncodeID index.id] ++ index.cols.map (idxEncVal currVals) ++ [pkEncVals]),
      value := [1],
      constraint := none }

/-- The new live entry staged for one secondary index, keyed by the new
column values, with the deletion flag clear. -/
def newKVFor (tableDbID tableID : Nat) (pkEncVals : List Nat) (values : ValMap)
    (index : Index) : KV :=
  if index.IsUnique then
    { key := mapKey UIndexPrefix ([ EncodeID tableDbID, EncodeID tableID, EncodeID index.id] ++ index.cols.map (idxEncVal values)),
      value := 0 :: pkEncVals,
      constraint := some .DeletedOrMustNotExist }
  else
    { key := mapKey SIndexPrefix ([ EncodeID tableDbID, EncodeID tableID, EncodeID index.id] ++ index.cols.map (idxEncVal values) ++ [pkEncVals]),
      value := [0],
      constraint := none }

/-- The ids claimed reusable: the secondary indexes whose old and new
column values all compare equal. -/
def reusableSpec (currVals newVals : ValMap) (indexes : List Index) : List Nat :=
  ((indexes.filter (fun i => !i.IsPrimary && idxColsEqual currVals newVals i.cols)).map (fun i => i.id))

/-- The tombstones claimed staged: one per secondary index whose key
changed, keyed by the old values. -/
def tombstonesSpec (tableDbID tableID : Nat) (pkEncVals : List Nat)
    (currVals newVals : ValMap) (indexes : List Index) : List KV :=
  (indexes.filter (fun i => !i.IsPrimary && !idxColsEqual currVals newVals i.cols)).map
    (tombKVFor tableDbID tableID pkEncVals currVals)

/-- The new entries claimed staged: one per secondary index that is not
reusable, keyed by the new values. -/
def newEntriesSpec (tableDbID tableID : Nat) (pkEncVals : List Nat) (values : ValMap)
    (reusable : List Nat) (indexes : List Index) : List KV :=
  (indexes.filter (fun i => !i.IsPrimary && !reusable.contains i.id)).map
    (newKVFor tableDbID tableID pkEncVals values)

/-! ## Concrete catalog instances (used by the witnesses) -/

/-- Column `id INTEGER`, primary key. -/
def cId : Column := { id := 1, colName := "id", colType := IntegerType, maxLen := 0, autoIncrement := false, notNull := false }

/-- Column `tag VARCHAR[4]`. -/
def cTag : Column := { id := 2, colName := "tag", colType := VarcharType, maxLen := 4, autoIncrement := false, notNull := false }

/-- The primary index on `id`. -/
def pkIdx : Index := { id := 0, unique := true, cols := [cId] }

/-- A non-unique secondary index on `tag`. -/
def tagIdx : Index := { id := 1, unique := false, cols := [cTag] }

/-- A unique secondary index on `tag`. -/
def uTagIdx : Index := { id := 1, unique := true, cols := [cTag] }

/-- Table `t(id INTEGER PRIMARY KEY, tag VARCHAR[4])` with a non-unique
index on `tag`. -/
def tblT : Table :=
  { dbID := 1, dbName := "db1", id := 1, name := "t", cols := [cId, cTag],
    indexes := [pkIdx, tagIdx], primaryIndex := pkIdx, autoIncrementPK := false, maxPK := 0 }

/-- The same table with the `tag` index unique. -/
def tblU : Table :=
  { dbID := 1, dbName := "db1", id := 1, name := "t", cols := [cId, cTag],
    indexes := [pkIdx, uTagIdx], primaryIndex := pkIdx, autoIncrementPK := false, maxPK := 0 }

/-- Column `id INTEGER AUTO_INCREMENT`. -/
def cIdA : Column := { id := 1, colName := "id", colType := IntegerType, maxLen := 0, autoIncrement := true, notNull := false }

/-- Column `name VARCHAR[8]`. -/
def cName : Column := { id := 2, colName := "name", colType := VarcharType, maxLen := 8, autoIncrement := false, notNull := false }

/-- The primary index on the auto-increment `id`. -/
def pkIdxA : Index := { id := 0, unique := true, cols := [cIdA] }

/-- Table `ta(id INTEGER AUTO_INCREMENT PRIMARY KEY, name VARCHAR[8])`. -/
def tblA : Table :=
  { dbID := 1, dbName := "db1", id := 2, name := "ta", cols := [cIdA, cName],
    indexes := [pkIdxA], primaryIndex := pkIdxA, autoIncrementPK := true, maxPK := 0 }

/-- The database holding the sample tables. -/
def dbOne : Database := { id := 1, name := "db1", tables := [tblT, tblA] }

/-- The encoded primary key of the row `id = 1`. -/
def pk1Enc : List Nat := beBytes 8 (2 ^ 63 + 1)

/-- A store containing the row `(id = 1, tag = "a")` and nothing else. -/
def storeT : StoreOracle :=
  fun k => if k = pk1Enc then some [(1, TV.num 1), (2, TV.varchar "a")] else none

/-- The empty store. -/
def emptyStore : StoreOracle := fun _ => none

/-! ## Theorems -/

/-- A successful `delIdxCols` run reports exactly whether the old and new
index-column values all compare equal, and returns the encoded old column
values. -/
theorem delIdxCols_ok (currVals newVals : ValMap) :
    ∀ (cols : List Column) (res : Bool × List (List Nat)),
      delIdxCols currVals newVals cols = .ok res →
      res.1 = idxColsEqual currVals newVals cols ∧ res.2 = cols.map (idxEncVal currVals) := by
  intro cols
  induction cols with
  | nil =>
      intro res h
      simp [delIdxCols] at h
      simp [← h, idxColsEqual]
  | cons col rest ih =>
      intro res h
      simp only [delIdxCols, Bind.bind, Except.bind] at h
      cases hc : ((currVals.lookup col.id).getD (TV.nullV col.colType)).Compare
          ((newVals.lookup col.id).getD (TV.nullV col.colType)) with
      | error e => rw [hc] at h; simp at h
      | ok r =>
          rw [hc] at h
          cases hrest : delIdxCols currVals newVals rest with
          | error e => rw [hrest] at h; simp at h
          | ok res' =>
              rw [hrest] at h
              simp at h
              obtain ⟨h1, h2⟩ := ih res' hrest
              subst h
              refine ⟨?_, ?_⟩
              · simp [h1, idxColsEqual, cmpIsZero, colVal, hc]
              · simp [h2, idxEncVal, colVal]

/-- A successful `deleteIndexEntriesFor` run marks reusable exactly the
secondary indexes whose key is unchanged and stages exactly one tombstone
per secondary index whose key changed, keyed by the old values. -/
theorem deleteIndexEntriesFor_ok (tableDbID tableID : Nat) (pkEncVals : List Nat)
    (currVals newVals : ValMap) :
    ∀ (indexes : List Index) (out : List Nat × List KV),
      deleteIndexEntriesFor tableDbID tableID pkEncVals currVals newVals indexes = .ok out →
      out.1 = reusableSpec currVals newVals indexes ∧
      out.2 = tombstonesSpec tableDbID tableID pkEncVals currVals newVals indexes := by
  intro indexes
  induction indexes with
  | nil =>
      intro out h
      simp [deleteIndexEntriesFor] at h
      simp [← h, reusableSpec, tombstonesSpec]
  | cons index rest ih =>
      intro out h
      by_cases hp : index.IsPrimary
      · rw [deleteIndexEntriesFor, if_pos hp] at h
        obtain ⟨h1, h2⟩ := ih out h
        constructor
        · simp [h1, reusableSpec, hp]
        · simp [h2, tombstonesSpec, hp]
      · rw [deleteIndexEntriesFor, if_neg hp] at h
        simp only [Bind.bind, Except.bind] at h
        cases hc : delIdxCols currVals newVals index.cols with
        | error e => rw [hc] at h; simp at h
        | ok res =>
            rw [hc] at h
            cases hrest : deleteIndexEntriesFor tableDbID tableID pkEncVals currVals newVals rest with
            | error e => rw [hrest] at h; simp at h
            | ok tailRes =>
                rw [hrest] at h
                obtain ⟨hr1, hr2⟩ := delIdxCols_ok currVals newVals index.cols res hc
                obtain ⟨ht1, ht2⟩ := ih tailRes hrest
                by_cases heq : idxColsEqual currVals newVals index.cols
                · simp [hr1, heq] at h
                  subst h
                  constructor
                  · simp [reusableSpec, hp, heq, ht1, reusableSpec]
                  · simp [tombstonesSpec, hp, heq, ht2, tombstonesSpec]
                · simp [hr1, heq] at h
                  subst h
                  constructor
                  · simp [reusableSpec, hp, heq, ht1, reusableSpec]
                  · simp [tombstonesSpec, hp, heq, ht2, tombstonesSpec, tombKVFor, hr2]

/-- A successful `encodeIdxCols` run returns the encoded new column
values. -/
theorem encodeIdxCols_ok (values : ValMap) :
    ∀ (cols : List Column) (encs : List (List Nat)),
      encodeIdxCols values cols = .ok encs → encs = cols.map (idxEncVal values) := by
  intro cols
  induction cols with
  | nil =>
      intro encs h
      simp [encodeIdxCols] at h
      simp [← h]
  | cons col rest ih =>
      intro encs h
      simp only [encodeIdxCols, Bind.bind, Except.bind] at h
      cases he : EncodeAsKey (colVal values col) col.colType col.maxLen with
      | error e => rw [colVal] at he; rw [he] at h; simp at h
      | ok encVal =>
          rw [colVal] at he
          rw [he] at h
          by_cases hlen : encVal.length > maxKeyLen
          · simp [hlen] at h
          · simp [hlen] at h
            cases hrest : encodeIdxCols values rest with
            | error e => rw [hrest] at h; simp at h
            | ok restEnc =>
                rw [hrest] at h
                simp at h
                subst h
                simp [ih restEnc hrest, idxEncVal, colVal, he, Except.toOption]

/-- A successful `secondaryEntriesFor` run stages exactly one new live
entry per secondary index that is not reusable, keyed by the new column
values. -/
theorem secondaryEntriesFor_ok (table : Table) (values : ValMap) (pkEncVals : List Nat)
    (reusable : List Nat) :
    ∀ (indexes : List Index) (secs : List KV),
      secondaryEntriesFor table values pkEncVals reusable indexes = .ok secs →
      secs = newEntriesSpec table.dbID table.id pkEncVals values reusable indexes := by
  intro indexes
  induction indexes with
  | nil =>
      intro secs h
      simp [secondaryEntriesFor] at h
      simp [← h, newEntriesSpec]
  | cons index rest ih =>
      intro secs h
      by_cases hp : index.IsPrimary
      · rw [secondaryEntriesFor, if_pos hp] at h
        simp [ih secs h, newEntriesSpec, hp]
      · rw [secondaryEntriesFor, if_neg hp] at h
        by_cases hre : reusable.contains index.id
        · rw [if_pos hre] at h
          have hmem : index.id ∈ reusable := by simpa using hre
          simp [ih secs h, newEntriesSpec, hp, hmem]
        · rw [if_neg hre] at h
          have hmem : index.id ∉ reusable := by simpa using hre
          simp only [Bind.bind, Except.bind] at h
          cases he : encodeIdxCols values index.cols with
          | error e => rw [he] at h; simp at h
          | ok encs =>
              rw [he] at h
              cases hrest : secondaryEntriesFor table values pkEncVals reusable rest with
              | error e => rw [hrest] at h; simp at h
              | ok restEntries =>
                  rw [hrest] at h
                  simp at h
                  subst h
                  by_cases hu : index.IsUnique <;>
                    simp [newEntriesSpec, hp, hmem, ih restEntries hrest, newKVFor, hu,
                      encodeIdxCols_ok values index.cols encs he]

/-- `Except` bind on a success. -/
theorem except_bind_ok {ε α β : Type} (a : α) (f : α → Except ε β) :
    (Except.ok a >>= f) = f a := rfl

/-- `Except` bind on an error. -/
theorem except_bind_error {ε α β : Type} (e : ε) (f : α → Except ε β) :
    ((Except.error e : Except ε α) >>= f) = Except.error e := rfl

/-- The two-byte map prefix of a key built by `mapKey`. -/
theorem mapKey_take2 (p : String) (chunks : List (List Nat)) (h : (strBytes p).length = 2) :
    (mapKey p chunks).take 2 = strBytes p := by
  rw [mapKey, ← h, List.take_left]

/-- Every tombstone staged by the claimed tombstone list carries no
constraint, has the deletion flag `1` as leading value byte, and its key
starts with a secondary-index map prefix. -/
theorem tombstonesSpec_facts (tableDbID tableID : Nat) (pkEncVals : List Nat)
    (currVals newVals : ValMap) (indexes : List Index) :
    ∀ kv ∈ tombstonesSpec tableDbID tableID pkEncVals currVals newVals indexes,
      kv.constraint = none ∧ kv.value.head? = some 1 ∧
      (kv.key.take 2 = strBytes UIndexPrefix ∨ kv.key.take 2 = strBytes SIndexPrefix) := by
  intro kv hkv
  rw [tombstonesSpec] at hkv
  obtain ⟨i, hi, rfl⟩ := List.mem_map.mp hkv
  rw [tombKVFor]
  by_cases hu : i.IsUnique
  · simp [hu, mapKey_take2 UIndexPrefix _ (by rfl)]
  · simp [hu, mapKey_take2 SIndexPrefix _ (by rfl)]

/-- Every new entry staged by the claimed new-entry list has the deletion
flag `0` as leading value byte; it carries the `deletedOrMustNotExist`
constraint exactly when its key carries the unique-index map prefix `U.`,
and no constraint when it carries the non-unique prefix `S.`. -/
theorem newEntriesSpec_facts (tableDbID tableID : Nat) (pkEncVals : List Nat)
    (values : ValMap) (reusable : List Nat) (indexes : List Index) :
    ∀ kv ∈ newEntriesSpec tableDbID tableID pkEncVals values reusable indexes,
      kv.value.head? = some 0 ∧
      (kv.key.take 2 = strBytes UIndexPrefix →
        kv.constraint = some KVConstraint.DeletedOrMustNotExist) ∧
      (kv.key.take 2 = strBytes SIndexPrefix → kv.constraint = none) := by
  intro kv hkv
  rw [newEntriesSpec] at hkv
  obtain ⟨i, hi, rfl⟩ := List.mem_map.mp hkv
  rw [newKVFor]
  by_cases hu : i.IsUnique
  · refine ⟨by simp [hu], fun _ => by simp [hu], fun hs => ?_⟩
    rw [if_pos hu] at hs ⊢
    simp [mapKey_take2 UIndexPrefix _ (by rfl)] at hs
    exact absurd hs (by simp [strBytes, UIndexPrefix, SIndexPrefix])
  · refine ⟨by simp [hu], fun hs => ?_, fun _ => by simp [hu]⟩
    rw [if_neg hu] at hs ⊢
    simp [mapKey_take2 SIndexPrefix _ (by rfl)] at hs
    exact absurd hs (by simp [strBytes, UIndexPrefix, SIndexPrefix])

/-- Inversion of `compileRowRest`: a successful run determines the staged
list as tombstones, then the primary entry with the constraint of
`pkConstraintOf`, then the new secondary entries. -/
theorem compileRowRest_inv (stmt : UpsertIntoStmt) (table : Table) (store : StoreOracle)
    (values : ValMap) (lastPK : Option Int) (maxPK : Int) (out : List KV × Option Int × Int)
    (h : compileRowRest stmt table store values lastPK maxPK = .ok out) :
    ∃ pkEncVals reus tombs secs payload,
      pkEncValsFor table values = .ok pkEncVals ∧
      (((!stmt.isInsert && table.indexes.length > 1) = true ∧
          ((∃ currVals, store pkEncVals = some currVals ∧
              deleteIndexEntriesFor table.dbID table.id pkEncVals currVals values table.indexes =
                .ok (reus, tombs)) ∨
            (store pkEncVals = none ∧ reus = [] ∧ tombs = []))) ∨
        ((!stmt.isInsert && table.indexes.length > 1) = false ∧ reus = [] ∧ tombs = [])) ∧
      encodePayloadCols values table.cols = .ok payload ∧
      secondaryEntriesFor table values pkEncVals reus table.indexes = .ok secs ∧
      out = (tombs ++
        { key := mapKey PIndexPrefix [ EncodeID table.dbID, EncodeID table.id, EncodeID table.primaryIndex.id, pkEncVals],
          value := 0 :: beBytes 4 values.length ++ payload,
          constraint := pkConstraintOf stmt.isInsert table.autoIncrementPK } :: secs, lastPK, maxPK) := by
  rw [compileRowRest] at h
  cases hpk : pkEncValsFor table values with
  | error e => simp only [hpk, except_bind_error] at h; simp at h
  | ok pkEncVals =>
      simp only [hpk, except_bind_ok] at h
      by_cases hcond : (!stmt.isInsert && table.indexes.length > 1) = true
      · simp only [if_pos hcond] at h
        cases hst : store pkEncVals with
        | none =>
            simp only [hst, except_bind_ok] at h
            cases hpay : encodePayloadCols values table.cols with
            | error e => simp only [hpay, except_bind_error] at h; simp at h
            | ok payload =>
                simp only [hpay, except_bind_ok] at h
                cases hsec : secondaryEntriesFor table values pkEncVals [] table.indexes with
                | error e => simp only [hsec, except_bind_error] at h; simp at h
                | ok secs =>
                    simp only [hsec, except_bind_ok] at h
                    simp at h
                    exact ⟨pkEncVals, [], [], secs, payload, rfl,
                      Or.inl ⟨hcond, Or.inr ⟨hst, rfl, rfl⟩⟩, rfl, hsec, by simp [← h]⟩
        | some currVals =>
            simp only [hst] at h
            cases hdel : deleteIndexEntriesFor table.dbID table.id pkEncVals currVals values table.indexes with
            | error e => simp only [hdel, except_bind_error] at h; simp at h
            | ok delRes =>
                simp only [hdel, except_bind_ok] at h
                cases hpay : encodePayloadCols values table.cols with
                | error e => simp only [hpay, except_bind_error] at h; simp at h
                | ok payload =>
                    simp only [hpay, except_bind_ok] at h
                    cases hsec : secondaryEntriesFor table values pkEncVals delRes.1 table.indexes with
                    | error e => simp only [hsec, except_bind_error] at h; simp at h
                    | ok secs =>
                        simp only [hsec, except_bind_ok] at h
                        simp at h
                        exact ⟨pkEncVals, delRes.1, delRes.2, secs, payload, rfl,
                          Or.inl ⟨hcond, Or.inl ⟨currVals, hst, by rw [hdel]⟩⟩, rfl, hsec,
                          by simp [← h]⟩
      · simp only [if_neg hcond, except_bind_ok] at h
        cases hpay : encodePayloadCols values table.cols with
        | error e => simp only [hpay, except_bind_error] at h; simp at h
        | ok payload =>
            simp only [hpay, except_bind_ok] at h
            cases hsec : secondaryEntriesFor table values pkEncVals [] table.indexes with
            | error e => simp only [hsec, except_bind_error] at h; simp at h
            | ok secs =>
                simp only [hsec, except_bind_ok] at h
                simp at h
                exact ⟨pkEncVals, [], [], secs, payload, rfl,
                  Or.inr ⟨by simpa using hcond, rfl, rfl⟩, rfl, hsec, by simp [← h]⟩

/-- Inversion of `compileRow`: a successful run stems from a successful
`compileRowRest` on the built (and possibly auto-increment-injected)
values, with the last-inserted key and the counter determined by the
statement kind. -/
theorem compileRow_inv (stmt : UpsertIntoStmt) (table : Table) (params : List (String × TV))
    (store : StoreOracle) (selPos : List (Nat × Nat)) (maxPK : Int) (rowVals : List ValueExp)
    (out : List KV × Option Int × Int)
    (h : compileRow stmt table params store selPos maxPK rowVals = .ok out) :
    ∃ values0 values lastPK mpk,
      buildRowValues stmt.isInsert table.dbName table.name params selPos rowVals table.cols [] =
        .ok values0 ∧
      compileRowRest stmt table store values lastPK mpk = .ok out ∧
      (((stmt.isInsert && table.autoIncrementPK) = true ∧
          lastPK = some (maxPK + 1) ∧ mpk = maxPK + 1) ∨
        ((stmt.isInsert && table.autoIncrementPK) = false ∧
          values = values0 ∧ lastPK = none ∧ mpk = maxPK)) := by
  rw [compileRow] at h
  cases hb : buildRowValues stmt.isInsert table.dbName table.name params selPos rowVals table.cols [] with
  | error e => simp only [hb, except_bind_error] at h; simp at h
  | ok values0 =>
      simp only [hb, except_bind_ok] at h
      by_cases hins : (stmt.isInsert && table.autoIncrementPK) = true
      · simp only [if_pos hins] at h
        cases hcols : table.primaryIndex.cols with
        | nil => simp only [hcols, except_bind_error] at h; simp at h
        | cons pkCol restCols =>
            simp only [hcols, except_bind_ok] at h
            exact ⟨values0, values0 ++ [(pkCol.id, TV.num (maxPK + 1))], some (maxPK + 1),
              maxPK + 1, rfl, h, Or.inl ⟨hins, rfl, rfl⟩⟩
      · simp only [if_neg hins, except_bind_ok] at h
        exact ⟨values0, values0, none, maxPK, rfl, h, Or.inr ⟨by simpa using hins, rfl, rfl, rfl⟩⟩

/-- C1 (counterexample): the claim states that under `=` null compares
unequal to null, so that `SELECT * FROM t WHERE col = NULL` rejects every
row, including rows whose `col` is NULL.  In fact `NullValue.Compare`
reports `0` for null against null, so on a row whose `tag` column is NULL
the filter predicate `tag = NULL` reduces to `true`: the row is kept, not
rejected. -/
theorem c1_counterexample :
    ValueExp.reduce (some [(EncodeSelector "" "db1" "t" "tag", TV.nullV VarcharType)]) "db1" "t"
      (.cmpE .EQ (.colSel "" "" "tag") (.constV (.nullV AnyType))) = .ok (.boolV true) := by
  rfl

/-- C1 (amended): `SELECT * FROM t WHERE col = NULL` keeps exactly the
rows whose `col` is NULL: the comparison `col = NULL` reduces to `true`
precisely when the row's value is null, and to `false` for every non-null
value (null compares equal to null and unequal to every non-null under
`=`). -/
theorem c1_amended_null_eq_filter :
    ∀ v : TV,
      ValueExp.reduce (some [(EncodeSelector "" "db1" "t" "tag", v)]) "db1" "t"
        (.cmpE .EQ (.colSel "" "" "tag") (.constV (.nullV AnyType))) = .ok (.boolV v.isNull) := by
  intro v
  cases v <;>
    simp [ValueExp.reduce, resolveSel, TV.Compare, TV.type, TV.isNull,
      AnyType, cmpSatisfiesOp, Bind.bind, Except.bind, List.lookup]

/-- C4: the engine-supplied `deletedOrMustNotExist` constraint accepts a
key that is absent from the store, accepts a key whose present value has
leading (tombstone) byte `1`, and rejects a present live value (tombstone
byte `0`) with `KeyAlreadyExists`. -/
theorem c4_deletedOrMustNotExist_spec :
    (∀ v : List Nat, deletedOrMustNotExist v (some .ErrKeyNotFound) = none) ∧
    (∀ v : List Nat, v.head? = some 1 → deletedOrMustNotExist v none = none) ∧
    (∀ v : List Nat, v.head? = some 0 →
      deletedOrMustNotExist v none = some .ErrKeyAlreadyExists) := by
  refine ⟨fun v => by simp [deletedOrMustNotExist], fun v h => ?_, fun v h => ?_⟩
  · cases v with
    | nil => simp at h
    | cons a t =>
        simp at h
        subst h
        simp [deletedOrMustNotExist]
  · cases v with
    | nil => simp at h
    | cons a t =>
        simp at h
        subst h
        simp [deletedOrMustNotExist]

/-- C4 (witness): the three behaviours at concrete values. -/
theorem c4_deletedOrMustNotExist_spec_witness :
    deletedOrMustNotExist [0, 7] (some Err.ErrKeyNotFound) = none ∧
    deletedOrMustNotExist [1, 5] none = none ∧
    deletedOrMustNotExist [0, 7] none = some Err.ErrKeyAlreadyExists :=
  ⟨c4_deletedOrMustNotExist_spec.1 [0, 7],
   c4_deletedOrMustNotExist_spec.2.1 [1, 5] rfl,
   c4_deletedOrMustNotExist_spec.2.2 [0, 7] rfl⟩

/-- C6 (counterexample): the claim states that NULL of any type compares
equal to another NULL; but `NullValue.Compare` first rejects a concrete
type mismatch, so a NULL of type INTEGER compared with a NULL of type
VARCHAR fails with `NotComparableValues` instead of returning `0`. -/
theorem c6_counterexample :
    TV.Compare (.nullV IntegerType) (.nullV VarcharType) = .error .ErrNotComparableValues := by
  rfl

/-- C6 (amended): `Compare` requires identical types, with the declared
type of a NULL participating on the left: a NULL compares equal to
another NULL and strictly less than any non-null value provided its
declared type is ANY or equal to the other side's type (otherwise
`NotComparableValues`); any non-null value compares greater than a NULL
without a type check; and two non-null values of different types fail
with `NotComparableValues`. -/
theorem c6_amended_compare_spec :
    (∀ t1 t2 : SQLValueType, (t1 = AnyType ∨ t2 = AnyType ∨ t1 = t2) →
      TV.Compare (.nullV t1) (.nullV t2) = .ok 0) ∧
    (∀ (t : SQLValueType) (v : TV), v.isNull = false → (t = AnyType ∨ t = v.type) →
      TV.Compare (.nullV t) v = .ok (-1)) ∧
    (∀ (v : TV) (t : SQLValueType), v.isNull = false → TV.Compare v (.nullV t) = .ok 1) ∧
    (∀ v w : TV, v.isNull = false → w.isNull = false → v.type ≠ w.type →
      TV.Compare v w = .error .ErrNotComparableValues) := by
  refine ⟨fun t1 t2 h => ?_, fun t v hv h => ?_, fun v t hv => ?_, fun v w hv hw hne => ?_⟩
  · rcases h with h | h | h <;> simp [TV.Compare, TV.type, TV.isNull, h]
  · cases v <;> simp_all [TV.Compare, TV.type, TV.isNull] <;>
      rcases h with h | h <;> simp [h]
  · cases v <;> simp_all [TV.Compare, TV.type, TV.isNull]
  · cases v <;> cases w <;>
      simp_all [TV.Compare, TV.type, TV.isNull, IntegerType, VarcharType, BooleanType,
        BLOBType, AnyType]

/-- C6 (witness): the amended behaviours at concrete values. -/
theorem c6_amended_compare_spec_witness :
    TV.Compare (.nullV AnyType) (.nullV VarcharType) = .ok 0 ∧
    TV.Compare (.nullV IntegerType) (.num 5) = .ok (-1) ∧
    TV.Compare (.num 5) (.nullV VarcharType) = .ok 1 ∧
    TV.Compare (.num 5) (.varchar "x") = .error .ErrNotComparableValues :=
  ⟨c6_amended_compare_spec.1 AnyType VarcharType (Or.inl rfl),
   c6_amended_compare_spec.2.1 IntegerType (.num 5) rfl (Or.inr rfl),
   c6_amended_compare_spec.2.2.1 (.num 5) VarcharType rfl,
   c6_amended_compare_spec.2.2.2 (.num 5) (.varchar "x") rfl rfl (by simp [TV.type, IntegerType, VarcharType])⟩

/-- C9 (counterexample): the claim states that keyword matching is
uppercase-normalized, so that the input word `create` is recognised as
the reserved token `CREATE`.  The lexer performs no normalization: the
word `create` is lexed as a plain identifier, while only the exact
spelling `CREATE` yields the reserved token. -/
theorem c9_counterexample :
    lexIdent (strBytes "create") = some (.ID "create", []) ∧
    lexIdent (strBytes "CREATE") = some (.CREATE, []) ∧
    Token.ID "create" ≠ Token.CREATE := by
  refine ⟨by rfl, by rfl, by simp⟩

/-- C9 (amended): keyword matching is case-sensitive: the exact
all-uppercase spelling of each reserved word is recognised as its
reserved token, while the lower-case spelling of each reserved word (and
mixed-case words such as `Create`) are lexed as plain identifiers. -/
theorem c9_amended_keyword_matching :
    (∀ p ∈ reservedWords, lexWordToken p.1 = p.2) ∧
    (∀ w ∈ ["create", "use", "database", "table", "index", "on", "alter", "add", "column"],
      lexWordToken w = .ID w) ∧
    lexWordToken "Create" = .ID "Create" := by
  refine ⟨?_, ?_, by rfl⟩
  · intro p hp
    fin_cases hp <;> rfl
  · intro w hw
    fin_cases hw <;> rfl

/-- C9 (witness): the exact keyword is recognised and its lowercase form
lexes as an identifier. -/
theorem c9_amended_keyword_matching_witness :
    lexWordToken "CREATE" = Token.CREATE ∧ lexWordToken "create" = Token.ID "create" :=
  ⟨c9_amended_keyword_matching.1 ("CREATE", Token.CREATE) (by simp [reservedWords]),
   c9_amended_keyword_matching.2.1 "create" (by simp)⟩

/-- C10: `selectorRanges` of a comparison contributes a range only when
the comparison's left operand is a column selector: whenever the left
operand is not a column selector (in particular when the constant is on
the left and the column selector on the right), the range map is left
unchanged, because the internal matching function inspects only the
expression's own left operand on both attempts. -/
theorem c10_const_left_no_range :
    ∀ (e : ValueExp) (db t col : String) (op : CmpOperator) (table : Table) (asTable : String)
      (params : List (String × TV)) (m : RangeMap),
      (∀ db' t' c', e ≠ .colSel db' t' c') →
      ValueExp.selectorRanges table asTable params (.cmpE op e (.colSel db t col)) m = .ok m := by
  intro e db t col op table asTable params m h
  cases e with
  | colSel a b c => exact absurd rfl (h a b c)
  | constV v => rfl
  | paramE i => rfl
  | cmpE op2 l r => rfl
  | binE op2 l r => rfl
  | notE e2 => rfl

/-- C10 (witness): the comparison `3 = tag` (constant on the left)
contributes no range. -/
theorem c10_const_left_no_range_witness :
    ValueExp.selectorRanges tblT "t" [] (.cmpE .EQ (.constV (.num 3)) (.colSel "" "" "tag")) [] =
      .ok [] :=
  c10_const_left_no_range (.constV (.num 3)) "" "" "tag" .EQ tblT "t" [] []
    (fun _ _ _ h => ValueExp.noConfusion h)

/-- C8: `SelectStmt.compileUsing` fails with `LimitedGroupBy` when
`GROUP BY` lists more than one column; fails with `LimitedOrderBy` when
`ORDER BY` lists more than one column, and also when its single target
column is not covered by any index of the referenced table; fails with
`HavingClauseRequiresGroupClause` when `HAVING` is present without
`GROUP BY`; and a `SELECT` violating none of these (with resolvable
references) compiles without error. -/
theorem c8_select_restrictions :
    (∀ (stmt : SelectStmt) (db : Database), stmt.groupBy.length > 1 →
      stmt.compileUsing (some db) = .error .ErrLimitedGroupBy) ∧
    (∀ (stmt : SelectStmt) (db : Database), stmt.having.isSome → stmt.groupBy = [] →
      stmt.compileUsing (some db) = .error .ErrHavingClauseRequiresGroupClause) ∧
    (∀ (stmt : SelectStmt) (db : Database), stmt.groupBy.length ≤ 1 →
      (stmt.having.isSome → stmt.groupBy ≠ []) → stmt.orderBy.length > 1 →
      stmt.compileUsing (some db) = .error .ErrLimitedOrderBy) ∧
    (∀ (stmt : SelectStmt) (db : Database) (oc : OrdCol) (tname : String) (table : Table)
       (col : Column), stmt.groupBy.length ≤ 1 → (stmt.having.isSome → stmt.groupBy ≠ []) →
      stmt.orderBy = [oc] → stmt.dsTable = some tname →
      db.GetTableByName tname = .ok table → table.GetColumnByName oc.col = .ok col →
      table.indexesByColID col.id = [] →
      stmt.compileUsing (some db) = .error .ErrLimitedOrderBy) ∧
    (∀ (stmt : SelectStmt) (db : Database), stmt.groupBy.length ≤ 1 →
      (stmt.having.isSome → stmt.groupBy ≠ []) →
      (stmt.orderBy = [] ∨
        ∃ (oc : OrdCol) (tname : String) (table : Table) (col : Column),
          stmt.orderBy = [oc] ∧ stmt.dsTable = some tname ∧
          db.GetTableByName tname = .ok table ∧ table.GetColumnByName oc.col = .ok col ∧
          table.indexesByColID col.id ≠ []) →
      stmt.compileUsing (some db) = .ok ()) := by
  refine ⟨fun stmt db h => ?_, fun stmt db hh hg => ?_, fun stmt db hg hhg ho => ?_,
    fun stmt db oc tname table col hg hhg ho hds ht hc hi => ?_,
    fun stmt db hg hhg hok => ?_⟩
  · have hne : ¬stmt.groupBy.isEmpty := by
      cases hgb : stmt.groupBy with
      | nil => rw [hgb] at h; simp at h
      | cons a l => simp [hgb]
    simp [SelectStmt.compileUsing, hne, h]
  · simp [SelectStmt.compileUsing, hg, hh]
  · have hnone : stmt.groupBy = [] → stmt.having = none := by
      intro h1
      cases hh2 : stmt.having with
      | none => rfl
      | some e => exact absurd h1 (hhg (by simp [hh2]))
    have hg2 : ¬stmt.groupBy.length > 1 := by omega
    simp [SelectStmt.compileUsing, hg2, ho]
    exact hnone
  · have hnone : stmt.groupBy = [] → stmt.having = none := by
      intro h1
      cases hh2 : stmt.having with
      | none => rfl
      | some e => exact absurd h1 (hhg (by simp [hh2]))
    have hg2 : ¬stmt.groupBy.length > 1 := by omega
    have ho2 : ¬stmt.orderBy.length > 1 := by rw [ho]; simp
    simp [SelectStmt.compileUsing, hg2, ho2, ho, hds, ht, hc, hi, Bind.bind, Except.bind]
    exact hnone
  · have hnone : stmt.groupBy = [] → stmt.having = none := by
      intro h1
      cases hh2 : stmt.having with
      | none => rfl
      | some e => exact absurd h1 (hhg (by simp [hh2]))
    have hg2 : ¬stmt.groupBy.length > 1 := by omega
    rcases hok with ho | ⟨oc, tname, table, col, ho, hds, ht, hc, hi⟩
    · simp [SelectStmt.compileUsing, hg2, ho]
      exact hnone
    · have ho2 : ¬stmt.orderBy.length > 1 := by rw [ho]; simp
      simp [SelectStmt.compileUsing, hg2, ho2, ho, hds, ht, hc, hi, Bind.bind, Except.bind]
      exact hnone

/-- C8 (witness): concrete statements exercising each branch: a two-column
`GROUP BY`, a `HAVING` without `GROUP BY`, a two-column `ORDER BY`, an
`ORDER BY` over an unindexed column, and a valid `ORDER BY` over the
indexed column `tag` of table `t`. -/
theorem c8_select_restrictions_witness :
    SelectStmt.compileUsing ⟨["a", "b"], none, [], none⟩ (some dbOne) =
      .error .ErrLimitedGroupBy ∧
    SelectStmt.compileUsing ⟨[], some (.constV (.boolV true)), [], none⟩ (some dbOne) =
      .error .ErrHavingClauseRequiresGroupClause ∧
    SelectStmt.compileUsing ⟨[], none, [⟨"id", false⟩, ⟨"tag", false⟩], some "t"⟩ (some dbOne) =
      .error .ErrLimitedOrderBy ∧
    SelectStmt.compileUsing ⟨[], none, [⟨"name", false⟩], some "ta"⟩ (some dbOne) =
      .error .ErrLimitedOrderBy ∧
    SelectStmt.compileUsing ⟨[], none, [⟨"tag", false⟩], some "t"⟩ (some dbOne) = .ok () := by
  refine ⟨c8_select_restrictions.1 _ dbOne (by simp),
    c8_select_restrictions.2.1 _ dbOne (by simp) rfl,
    c8_select_restrictions.2.2.1 _ dbOne (by simp) (by simp) (by simp),
    c8_select_restrictions.2.2.2.1 _ dbOne ⟨"name", false⟩ "ta" tblA cName
      (by simp) (by simp) rfl rfl (by rfl) (by rfl) (by rfl),
    c8_select_restrictions.2.2.2.2 _ dbOne (by simp) (by simp)
      (Or.inr ⟨⟨"tag", false⟩, "t", tblT, cTag, rfl, rfl, by rfl, by rfl,
        by simp [Table.indexesByColID, tblT, pkIdx, tagIdx, cId, cTag]⟩)⟩

set_option maxRecDepth 100000 in
/-- C2 (counterexample): the claim states that every entry emitted for a
unique secondary index carries `deletedOrMustNotExist`; but an `UPSERT`
that changes a unique-indexed column also stages a tombstone entry for
that unique index (key prefix `U.`, deletion flag `1`), and that entry is
staged with no constraint at all. -/
theorem c2_counterexample :
    ((UpsertIntoStmt.compileUsing
        ⟨false, ["id", "tag"], [[.constV (.num 1), .constV (.varchar "b")]]⟩ tblU [] storeT).toOption.bind
      (fun s => s.1.des.get? 0)).map (fun kv => (kv.key.take 2, kv.value.head?, kv.constraint)) =
      some (strBytes UIndexPrefix, some 1, none) := by
  with_unfolding_all rfl

/-- C2 (amended): when an UPSERT/INSERT row is compiled, the staged
entries are tombstones, then the primary-index entry, then the new
secondary entries.  The constraint of the primary entry is determined
exactly by the statement kind and the auto-increment flag per the
constraint matrix; every new (live) entry emitted in the secondary-index
loop for a unique index (key prefix `U.`) carries
`deletedOrMustNotExist` while non-unique ones (key prefix `S.`) carry
none; and the tombstone entries staged by `deleteIndexEntriesFor` —
including those for unique indexes — carry no constraint. -/
theorem c2_amended_constraints :
    ∀ (stmt : UpsertIntoStmt) (table : Table) (params : List (String × TV)) (store : StoreOracle)
      (selPos : List (Nat × Nat)) (maxPK : Int) (rowVals : List ValueExp)
      (out : List KV × Option Int × Int),
      compileRow stmt table params store selPos maxPK rowVals = .ok out →
      ∃ tombs pke secs, out.1 = tombs ++ pke :: secs ∧
        (stmt.isInsert = true → table.autoIncrementPK = false →
          pke.constraint = some KVConstraint.DeletedOrMustNotExist) ∧
        (stmt.isInsert = true → table.autoIncrementPK = true → pke.constraint = none) ∧
        (stmt.isInsert = false → table.autoIncrementPK = false → pke.constraint = none) ∧
        (stmt.isInsert = false → table.autoIncrementPK = true →
          pke.constraint = some KVConstraint.MustExist) ∧
        (∀ kv ∈ secs, kv.value.head? = some 0 ∧
          (kv.key.take 2 = strBytes UIndexPrefix →
            kv.constraint = some KVConstraint.DeletedOrMustNotExist) ∧
          (kv.key.take 2 = strBytes SIndexPrefix → kv.constraint = none)) ∧
        (∀ kv ∈ tombs, kv.constraint = none ∧ kv.value.head? = some 1) := by
  intro stmt table params store selPos maxPK rowVals out h
  obtain ⟨values0, values, lastPK, mpk, hb, hrest, hcase⟩ :=
    compileRow_inv stmt table params store selPos maxPK rowVals out h
  obtain ⟨pkEnc, reus, tombs, secs, payload, hpk, hdel, hpay, hsec, hout⟩ :=
    compileRowRest_inv stmt table store values lastPK mpk out hrest
  refine ⟨tombs, _, secs, by rw [hout], ?_, ?_, ?_, ?_, ?_, ?_⟩
  · intro h1 h2
    simp [pkConstraintOf, h1, h2]
  · intro h1 h2
    simp [pkConstraintOf, h1, h2]
  · intro h1 h2
    simp [pkConstraintOf, h1, h2]
  · intro h1 h2
    simp [pkConstraintOf, h1, h2]
  · intro kv hkv
    have hspec := secondaryEntriesFor_ok table values pkEnc reus table.indexes secs hsec
    rw [hspec] at hkv
    exact newEntriesSpec_facts table.dbID table.id pkEnc values reus table.indexes kv hkv
  · intro kv hkv
    rcases hdel with ⟨hcond, hin⟩ | ⟨hcond, hre, hte⟩
    · rcases hin with ⟨currVals, hst, hdeq⟩ | ⟨hst, hre, hte⟩
      · obtain ⟨hr, ht⟩ := deleteIndexEntriesFor_ok table.dbID table.id pkEnc currVals values
          table.indexes (reus, tombs) hdeq
        have ht2 : tombs = tombstonesSpec table.dbID table.id pkEnc currVals values table.indexes := by
          simpa using ht
        rw [ht2] at hkv
        obtain ⟨hc1, hc2, hc3⟩ := tombstonesSpec_facts table.dbID table.id pkEnc currVals values
          table.indexes kv hkv
        exact ⟨hc1, hc2⟩
      · rw [hte] at hkv
        simp at hkv
    · rw [hte] at hkv
      simp at hkv

set_option maxRecDepth 100000 in
/-- C2 (witness): a concrete `INSERT` into the non-auto-increment table
`t` compiles; its staged list decomposes as claimed and the primary entry
carries `deletedOrMustNotExist`. -/
theorem c2_amended_constraints_witness :
    ∃ (out : List KV × Option Int × Int) (tombs : List KV) (pke : KV) (secs : List KV),
      compileRow ⟨true, ["id", "tag"], [[.constV (.num 1), .constV (.varchar "a")]]⟩ tblT []
        emptyStore [(1, 0), (2, 1)] 0 [.constV (.num 1), .constV (.varchar "a")] = .ok out ∧
      out.1 = tombs ++ pke :: secs ∧
      pke.constraint = some KVConstraint.DeletedOrMustNotExist := by
  have hex : ∃ out, compileRow ⟨true, ["id", "tag"], [[.constV (.num 1), .constV (.varchar "a")]]⟩
      tblT [] emptyStore [(1, 0), (2, 1)] 0 [.constV (.num 1), .constV (.varchar "a")] = .ok out :=
    ⟨_, by with_unfolding_all rfl⟩
  obtain ⟨out, hout⟩ := hex
  obtain ⟨tombs, pke, secs, h1, h2, _⟩ :=
    c2_amended_constraints ⟨true, ["id", "tag"], [[.constV (.num 1), .constV (.varchar "a")]]⟩
      tblT [] emptyStore [(1, 0), (2, 1)] 0 [.constV (.num 1), .constV (.varchar "a")] out hout
  exact ⟨out, tombs, pke, secs, hout, h1, h2 rfl (by rfl)⟩


/-- C3: for an UPSERT (non-insert) into a table with at least one
secondary index, when the row with the same primary key exists in the
store: `deleteIndexEntriesFor` marks reusable exactly the secondary
indexes whose old and new index-column values compare equal (and no
tombstone is staged for them), and for every other secondary index a
tombstone entry (leading value byte `1`) keyed by the old index-column
values is staged; the staged list of the row is these tombstones,
followed by the primary entry, followed by the new live entries (leading
value byte `0`, keyed by the new index-column values), which are emitted
exactly for the non-reusable secondary indexes. -/
theorem c3_upsert_index_maintenance :
    ∀ (stmt : UpsertIntoStmt) (table : Table) (store : StoreOracle)
      (values : ValMap) (lastPK : Option Int) (maxPK : Int)
      (pkEncVals : List Nat) (currVals : ValMap) (out : List KV × Option Int × Int),
      stmt.isInsert = false →
      table.indexes.length > 1 →
      pkEncValsFor table values = .ok pkEncVals →
      store pkEncVals = some currVals →
      compileRowRest stmt table store values lastPK maxPK = .ok out →
      ∃ reus tombs secs payload,
        deleteIndexEntriesFor table.dbID table.id pkEncVals currVals values table.indexes =
          .ok (reus, tombs) ∧
        secondaryEntriesFor table values pkEncVals reus table.indexes = .ok secs ∧
        out.1 = tombs ++
          { key := mapKey PIndexPrefix [ EncodeID table.dbID, EncodeID table.id, EncodeID table.primaryIndex.id, pkEncVals],
            value := 0 :: beBytes 4 values.length ++ payload,
            constraint := pkConstraintOf stmt.isInsert table.autoIncrementPK } :: secs ∧
        reus = reusableSpec currVals values table.indexes ∧
        tombs = tombstonesSpec table.dbID table.id pkEncVals currVals values table.indexes ∧
        secs = newEntriesSpec table.dbID table.id pkEncVals values reus table.indexes ∧
        (∀ idx ∈ table.indexes, idx.IsPrimary = false →
          (idxColsEqual currVals values idx.cols = true → idx.id ∈ reus) ∧
          (idxColsEqual currVals values idx.cols = false →
            tombKVFor table.dbID table.id pkEncVals currVals idx ∈ tombs ∧
            (tombKVFor table.dbID table.id pkEncVals currVals idx).value.head? = some 1 ∧
            (idx.id ∉ reus →
              newKVFor table.dbID table.id pkEncVals values idx ∈ secs ∧
              (newKVFor table.dbID table.id pkEncVals values idx).value.head? = some 0))) ∧
        (∀ kv ∈ secs, ∃ idx ∈ table.indexes, idx.IsPrimary = false ∧ idx.id ∉ reus ∧
          kv = newKVFor table.dbID table.id pkEncVals values idx) := by
  intro stmt table store values lastPK maxPK pkEncVals currVals out hins hlen hpk hst h
  obtain ⟨pkEnc2, reus, tombs, secs, payload, hpk2, hdel, hpay, hsec, hout⟩ :=
    compileRowRest_inv stmt table store values lastPK maxPK out h
  have hpkeq : pkEnc2 = pkEncVals := Except.ok.inj (hpk2.symm.trans hpk)
  subst hpkeq
  have hcond : (!stmt.isInsert && table.indexes.length > 1) = true := by
    simp [hins, hlen]
  rcases hdel with ⟨_, hin⟩ | ⟨hc2, _, _⟩
  · rcases hin with ⟨currVals2, hst2, hdeq⟩ | ⟨hst2, _, _⟩
    · have hcv : currVals2 = currVals := Option.some.inj (hst2.symm.trans hst)
      subst hcv
      obtain ⟨hr, ht⟩ := deleteIndexEntriesFor_ok table.dbID table.id pkEnc2 currVals2 values
        table.indexes (reus, tombs) hdeq
      have hr2 : reus = reusableSpec currVals2 values table.indexes := by simpa using hr
      have ht2 : tombs = tombstonesSpec table.dbID table.id pkEnc2 currVals2 values table.indexes := by
        simpa using ht
      have hs := secondaryEntriesFor_ok table values pkEnc2 reus table.indexes secs hsec
      refine ⟨reus, tombs, secs, payload, hdeq, hsec, by rw [hout], hr2, ht2, hs, ?_, ?_⟩
      · intro idx hidx hnp
        constructor
        · intro heq
          rw [hr2, reusableSpec]
          exact List.mem_map.mpr ⟨idx, List.mem_filter.mpr ⟨hidx, by simp [hnp, heq]⟩, rfl⟩
        · intro hneq
          refine ⟨?_, ?_, ?_⟩
          · rw [ht2, tombstonesSpec]
            exact List.mem_map.mpr ⟨idx, List.mem_filter.mpr ⟨hidx, by simp [hnp, hneq]⟩, rfl⟩
          · rw [tombKVFor]
            by_cases hu : idx.IsUnique <;> simp [hu]
          · intro hnr
            refine ⟨?_, ?_⟩
            · rw [hs, newEntriesSpec]
              exact List.mem_map.mpr ⟨idx, List.mem_filter.mpr ⟨hidx, by simp [hnp, hnr]⟩, rfl⟩
            · rw [newKVFor]
              by_cases hu : idx.IsUnique <;> simp [hu]
      · intro kv hkv
        rw [hs, newEntriesSpec] at hkv
        obtain ⟨idx, hmem, rfl⟩ := List.mem_map.mp hkv
        obtain ⟨hidx, hcondi⟩ := List.mem_filter.mp hmem
        simp only [Bool.and_eq_true] at hcondi
        refine ⟨idx, hidx, ?_, ?_, rfl⟩
        · simpa using hcondi.1
        · simpa using hcondi.2
    · rw [hst] at hst2
      exact absurd hst2 (by simp)
  · rw [hcond] at hc2
    exact absurd hc2 (by simp)

set_option maxRecDepth 100000 in
/-- C3 (witness): the concrete `UPSERT` of `(1, "b")` over the stored row
`(1, "a")` in table `t` (non-unique index on `tag`) stages exactly the
tombstone for the old key and the new live entry for the new key. -/
theorem c3_upsert_index_maintenance_witness :
    ∃ (out : List KV × Option Int × Int) (reus : List Nat) (tombs secs : List KV),
      compileRowRest ⟨false, ["id", "tag"], [[.constV (.num 1), .constV (.varchar "b")]]⟩ tblT
        storeT [(1, TV.num 1), (2, TV.varchar "b")] none 0 = .ok out ∧
      deleteIndexEntriesFor tblT.dbID tblT.id pk1Enc [(1, TV.num 1), (2, TV.varchar "a")]
        [(1, TV.num 1), (2, TV.varchar "b")] tblT.indexes = .ok (reus, tombs) ∧
      secondaryEntriesFor tblT [(1, TV.num 1), (2, TV.varchar "b")] pk1Enc reus tblT.indexes =
        .ok secs ∧
      reus = reusableSpec [(1, TV.num 1), (2, TV.varchar "a")] [(1, TV.num 1), (2, TV.varchar "b")]
        tblT.indexes ∧
      tombs = tombstonesSpec tblT.dbID tblT.id pk1Enc [(1, TV.num 1), (2, TV.varchar "a")]
        [(1, TV.num 1), (2, TV.varchar "b")] tblT.indexes ∧
      secs = newEntriesSpec tblT.dbID tblT.id pk1Enc [(1, TV.num 1), (2, TV.varchar "b")] reus
        tblT.indexes := by
  have hex : ∃ out, compileRowRest ⟨false, ["id", "tag"], [[.constV (.num 1), .constV (.varchar "b")]]⟩
      tblT storeT [(1, TV.num 1), (2, TV.varchar "b")] none 0 = .ok out :=
    ⟨_, by with_unfolding_all rfl⟩
  obtain ⟨out, hout⟩ := hex
  obtain ⟨reus, tombs, secs, payload, h1, h2, h3, h4, h5, h6, h7, h8⟩ :=
    c3_upsert_index_maintenance ⟨false, ["id", "tag"], [[.constV (.num 1), .constV (.varchar "b")]]⟩
      tblT storeT [(1, TV.num 1), (2, TV.varchar "b")] none 0 pk1Enc
      [(1, TV.num 1), (2, TV.varchar "a")] out rfl (by decide) (by rfl) (by rfl) hout
  exact ⟨out, reus, tombs, secs, hout, h1, h2, h4, h5, h6⟩


/-- `List.lookup` on a cons whose head key differs. -/
theorem lookup_cons_ne {α β : Type} [BEq α] [LawfulBEq α] (k : α) (p : α × β)
    (t : List (α × β)) (hk : ¬p.1 = k) : List.lookup k (p :: t) = List.lookup k t := by
  have hne : (k == p.1) = false := beq_eq_false_iff_ne.mpr (fun h => hk h.symm)
  cases p
  simp only [List.lookup]
  rw [hne]

/-- `List.lookup` on a cons whose head key matches. -/
theorem lookup_cons_eq {α β : Type} [BEq α] [LawfulBEq α] (k : α) (b : β)
    (t : List (α × β)) : List.lookup k ((k, b) :: t) = some b := by
  simp only [List.lookup]
  rw [beq_self_eq_true]

/-- Looking up the key just set by `lipkSet` yields the new value
(update-in-place case). -/
theorem lookup_lipkSet_map (k : String) (v : Int) :
    ∀ l : List (String × Int), (List.lookup k l).isSome = true →
      List.lookup k (l.map (fun p => if p.1 = k then (k, v) else p)) = some v := by
  intro l
  induction l with
  | nil => intro h; simp [List.lookup] at h
  | cons p t ih =>
      intro h
      by_cases hk : p.1 = k
      · rw [List.map_cons, if_pos hk]
        exact lookup_cons_eq k v _
      · rw [List.map_cons, if_neg hk, lookup_cons_ne k p _ hk]
        rw [lookup_cons_ne k p t hk] at h
        exact ih h

/-- Looking up the key just set by `lipkSet` yields the new value
(append case). -/
theorem lookup_lipkSet_append (k : String) (v : Int) :
    ∀ l : List (String × Int), List.lookup k l = none →
      List.lookup k (l ++ [(k, v)]) = some v := by
  intro l
  induction l with
  | nil => intro h; exact lookup_cons_eq k v []
  | cons p t ih =>
      intro h
      by_cases hk : p.1 = k
      · obtain ⟨p1, p2⟩ := p
        simp only at hk
        subst hk
        rw [lookup_cons_eq] at h
        simp at h
      · rw [lookup_cons_ne k p t hk] at h
        rw [List.cons_append, lookup_cons_ne k p _ hk]
        exact ih h

/-- Looking up the key just set by `lipkSet` yields the new value. -/
theorem lookup_lipkSet (l : List (String × Int)) (k : String) (v : Int) :
    List.lookup k (lipkSet l k v) = some v := by
  rw [lipkSet]
  by_cases hp : (List.lookup k l).isSome = true
  · rw [if_pos hp]
    exact lookup_lipkSet_map k v l hp
  · rw [if_neg hp]
    have hnone : List.lookup k l = none := by
      cases hx : List.lookup k l with
      | none => rfl
      | some x => rw [hx] at hp; simp at hp
    exact lookup_lipkSet_append k v l hnone

/-- A successful `compileRow` of an `INSERT` into an auto-increment table
records `maxPK + 1` as the last inserted primary key and advances the
counter by exactly one. -/
theorem compileRow_autoinc (stmt : UpsertIntoStmt) (table : Table) (params : List (String × TV))
    (store : StoreOracle) (selPos : List (Nat × Nat)) (maxPK : Int) (rowVals : List ValueExp)
    (out : List KV × Option Int × Int)
    (hins : (stmt.isInsert && table.autoIncrementPK) = true)
    (h : compileRow stmt table params store selPos maxPK rowVals = .ok out) :
    out.2.1 = some (maxPK + 1) ∧ out.2.2 = maxPK + 1 := by
  obtain ⟨values0, values, lastPK, mpk, hb, hrest, hcase⟩ :=
    compileRow_inv stmt table params store selPos maxPK rowVals out h
  obtain ⟨pkEnc, reus, tombs, secs, payload, hpk, hdel, hpay, hsec, hout⟩ :=
    compileRowRest_inv stmt table store values lastPK mpk out hrest
  rcases hcase with ⟨_, h1, h2⟩ | ⟨hfalse, _⟩
  · rw [hout]
    simp [h1, h2]
  · rw [hins] at hfalse
    simp at hfalse

/-- A successful `compileRows` run of an `INSERT` into an auto-increment
table advances the counter by the number of rows and records the final
counter value as the last inserted primary key of the table. -/
theorem compileRows_autoinc (stmt : UpsertIntoStmt) (table : Table) (params : List (String × TV))
    (store : StoreOracle) (selPos : List (Nat × Nat))
    (hins : (stmt.isInsert && table.autoIncrementPK) = true) :
    ∀ (rows : List (List ValueExp)) (summary : TxSummary) (maxPK : Int) (S : TxSummary) (mpk : Int),
      compileRows stmt table params store selPos rows summary maxPK = .ok (S, mpk) →
      mpk = maxPK + rows.length ∧
      (rows = [] → S = summary) ∧
      (rows ≠ [] → List.lookup table.name S.lastInsertedPKs = some mpk) := by
  intro rows
  induction rows with
  | nil =>
      intro summary maxPK S mpk h
      simp [compileRows] at h
      exact ⟨by simp [h.2.symm], fun _ => h.1.symm, fun hne => absurd rfl hne⟩
  | cons row rest ih =>
      intro summary maxPK S mpk h
      rw [compileRows] at h
      by_cases hlen : row.length ≠ stmt.cols.length
      · rw [if_pos hlen] at h
        simp at h
      · rw [if_neg hlen] at h
        cases hcr : compileRow stmt table params store selPos maxPK row with
        | error e => simp only [hcr, except_bind_error] at h; simp at h
        | ok res =>
            simp only [hcr, except_bind_ok] at h
            obtain ⟨hlast, hmpk⟩ :=
              compileRow_autoinc stmt table params store selPos maxPK row res hins hcr
            simp only [hlast, hmpk] at h
            obtain ⟨h1, h2, h3⟩ := ih _ _ _ _ h
            refine ⟨by rw [h1]; simp only [List.length_cons]; push_cast; ring,
              fun hne => by simp at hne, fun _ => ?_⟩
            cases hrest : rest with
            | nil =>
                subst hrest
                have hS := h2 rfl
                rw [hS]
                simp only [h1]
                simpa using lookup_lipkSet summary.lastInsertedPKs table.name (maxPK + 1)
            | cons r t =>
                rw [hrest] at h3
                exact h3 (by simp)

/-- A successful lookup in the selector-position map implies a membership
in it. -/
theorem lookup_mem_selPos (selPos : List (Nat × Nat)) (k p : Nat)
    (h : List.lookup k selPos = some p) : (k, p) ∈ selPos := by
  induction selPos with
  | nil => simp [List.lookup] at h
  | cons q t ih =>
      by_cases hk : q.1 = k
      · obtain ⟨q1, q2⟩ := q
        simp only at hk
        subst hk
        rw [lookup_cons_eq] at h
        simp at h
        simp [h]
      · rw [lookup_cons_ne k q t hk] at h
        exact List.mem_cons_of_mem _ (ih h)

/-- Building the row values of an `INSERT` fails with
`ErrNoValueForAutoIncrementalColumn` as soon as some auto-increment
column is supplied, provided no other per-column error fires first. -/
theorem buildRowValues_autoinc_err (dbName tableName : String) (params : List (String × TV))
    (selPos : List (Nat × Nat)) (rowVals : List ValueExp)
    (hpos : ∀ p ∈ selPos, p.2 < rowVals.length)
    (hconst : ∀ v ∈ rowVals, ∃ tv : TV, v = .constV tv ∧ tv.isNull = false) :
    ∀ (cols : List Column) (acc : ValMap),
      (∃ c ∈ cols, c.autoIncrement = true ∧ (selPos.lookup c.id).isSome = true) →
      (∀ col ∈ cols, col.notNull = true → (selPos.lookup col.id).isSome = true) →
      buildRowValues true dbName tableName params selPos rowVals cols acc =
        .error .ErrNoValueForAutoIncrementalColumn := by
  intro cols
  induction cols with
  | nil =>
      intro acc hex _
      simp at hex
  | cons col rest ih =>
      intro acc hex hnn
      rw [buildRowValues]
      cases hlk : selPos.lookup col.id with
      | none =>
          have hcolnn : col.notNull = false := by
            by_contra hcn
            have := hnn col (by simp) (by simpa using hcn)
            rw [hlk] at this
            simp at this
          rw [hcolnn]
          simp only [Bool.false_eq_true, if_false]
          refine ih acc ?_ (fun c hc => hnn c (List.mem_cons_of_mem _ hc))
          obtain ⟨c, hc, hca, hcs⟩ := hex
          rcases List.mem_cons.mp hc with rfl | hc2
          · rw [hlk] at hcs; simp at hcs
          · exact ⟨c, hc2, hca, hcs⟩
      | some colPos =>
          by_cases hai : col.autoIncrement = true
          · simp [hai]
          · simp only [Bool.true_and, hai]
            have hmem := lookup_mem_selPos selPos col.id colPos hlk
            have hlt := hpos (col.id, colPos) hmem
            have hget : ∃ v, rowVals.get? colPos = some v := by
              rw [List.get?_eq_getElem?]
              exact ⟨rowVals[colPos], by simp [List.getElem?_eq_getElem hlt]⟩
            obtain ⟨v, hv⟩ := hget
            obtain ⟨tv, rfl, htv⟩ := hconst v (by
              have := List.getElem?_eq_some_iff.mp (by rw [← List.get?_eq_getElem?]; exact hv)
              obtain ⟨hlt2, heq⟩ := this
              rw [← heq]
              exact List.getElem_mem hlt2)
            rw [hv]
            simp only [ValueExp.substitute, ValueExp.reduce, except_bind_ok, htv]
            simp only [Bool.false_eq_true, if_false]
            refine ih _ ?_ (fun c hc => hnn c (List.mem_cons_of_mem _ hc))
            obtain ⟨c, hc, hca, hcs⟩ := hex
            rcases List.mem_cons.mp hc with rfl | hc2
            · rw [hca] at hai; simp at hai
            · exact ⟨c, hc2, hca, hcs⟩

/-- C7: for an `INSERT` into a table with an auto-increment primary key:
supplying a value for any auto-increment column (the primary key) fails
with `NoValueForAutoIncrementalColumn` (provided no other per-column
error fires first); a successful compile of `n` rows advances
`table.maxPK` by exactly `n` — one per row — and the summary maps the
table name in `lastInsertedPKs` to the final counter value, the last
primary key assigned in that statement; consequently two successive
`INSERT` statements report strictly increasing primary keys. -/
theorem c7_auto_increment_spec :
    (∀ (stmt : UpsertIntoStmt) (table : Table) (params : List (String × TV))
       (store : StoreOracle) (selPos : List (Nat × Nat)) (rowVals : List ValueExp)
       (rest : List (List ValueExp)),
      stmt.isInsert = true →
      stmt.validate table = .ok selPos →
      stmt.rows = rowVals :: rest →
      rowVals.length = stmt.cols.length →
      (∀ p ∈ selPos, p.2 < rowVals.length) →
      (∀ v ∈ rowVals, ∃ tv : TV, v = .constV tv ∧ tv.isNull = false) →
      (∃ c ∈ table.cols, c.autoIncrement = true ∧ (selPos.lookup c.id).isSome = true) →
      (∀ col ∈ table.cols, col.notNull = true → (selPos.lookup col.id).isSome = true) →
      stmt.compileUsing table params store = .error .ErrNoValueForAutoIncrementalColumn) ∧
    (∀ (stmt : UpsertIntoStmt) (table : Table) (params : List (String × TV))
       (store : StoreOracle) (S : TxSummary) (mpk : Int),
      stmt.isInsert = true → table.autoIncrementPK = true →
      stmt.compileUsing table params store = .ok (S, mpk) →
      mpk = table.maxPK + stmt.rows.length ∧
      (stmt.rows ≠ [] →
        S.lastInsertedPKs.lookup table.name = some (table.maxPK + stmt.rows.length))) ∧
    (∀ (stmt1 stmt2 : UpsertIntoStmt) (table : Table) (params1 params2 : List (String × TV))
       (store1 store2 : StoreOracle) (S1 S2 : TxSummary) (m1 m2 : Int),
      stmt1.isInsert = true → stmt2.isInsert = true → table.autoIncrementPK = true →
      stmt1.rows ≠ [] → stmt2.rows ≠ [] →
      stmt1.compileUsing table params1 store1 = .ok (S1, m1) →
      stmt2.compileUsing { table with maxPK := m1 } params2 store2 = .ok (S2, m2) →
      ∃ p1 p2, S1.lastInsertedPKs.lookup table.name = some p1 ∧
        S2.lastInsertedPKs.lookup table.name = some p2 ∧ p1 < p2) := by
  have hpart2 : ∀ (stmt : UpsertIntoStmt) (table : Table) (params : List (String × TV))
      (store : StoreOracle) (S : TxSummary) (mpk : Int),
      stmt.isInsert = true → table.autoIncrementPK = true →
      stmt.compileUsing table params store = .ok (S, mpk) →
      mpk = table.maxPK + stmt.rows.length ∧
      (stmt.rows ≠ [] →
        S.lastInsertedPKs.lookup table.name = some (table.maxPK + stmt.rows.length)) := by
    intro stmt table params store S mpk h1 h2 h
    rw [UpsertIntoStmt.compileUsing] at h
    cases hv : stmt.validate table with
    | error e => simp only [hv, except_bind_error] at h; simp at h
    | ok selPos =>
        simp only [hv, except_bind_ok] at h
        obtain ⟨hmpk, _, hlast⟩ := compileRows_autoinc stmt table params store selPos
          (by simp [h1, h2]) stmt.rows _ table.maxPK S mpk h
        exact ⟨hmpk, fun hne => by rw [← hmpk]; exact hlast hne⟩
  refine ⟨?_, hpart2, ?_⟩
  · intro stmt table params store selPos rowVals rest h1 hv hrows hlen hpos hconst hex hnn
    rw [UpsertIntoStmt.compileUsing]
    simp only [hv, except_bind_ok, hrows]
    rw [compileRows]
    rw [if_neg (by simp [hlen])]
    rw [compileRow]
    rw [show buildRowValues stmt.isInsert table.dbName table.name params selPos rowVals table.cols [] =
      .error .ErrNoValueForAutoIncrementalColumn from by
        rw [h1]
        exact buildRowValues_autoinc_err table.dbName table.name params selPos rowVals hpos hconst
          table.cols [] hex hnn]
    rfl
  · intro stmt1 stmt2 table params1 params2 store1 store2 S1 S2 m1 m2 h1 h2 hai hr1 hr2 hc1 hc2
    obtain ⟨hm1, hl1⟩ := hpart2 stmt1 table params1 store1 S1 m1 h1 hai hc1
    obtain ⟨hm2, hl2⟩ := hpart2 stmt2 { table with maxPK := m1 } params2 store2 S2 m2 h2 hai hc2
    refine ⟨table.maxPK + stmt1.rows.length, m1 + stmt2.rows.length, hl1 hr1, by simpa using hl2 hr2, ?_⟩
    rw [hm1]
    have hpos1 : 0 < (stmt1.rows.length : Int) := by
      cases hr : stmt1.rows with
      | nil => exact absurd hr hr1
      | cons a t => simp [hr]
    have hpos2 : 0 < (stmt2.rows.length : Int) := by
      cases hr : stmt2.rows with
      | nil => exact absurd hr hr2
      | cons a t => simp [hr]
    omega

set_option maxRecDepth 100000 in
/-- C7 (witness): supplying the auto-increment `id` of table `ta` in an
`INSERT` fails with `NoValueForAutoIncrementalColumn`; inserting two rows
without it advances `maxPK` from 0 to 2 and reports `2` in
`lastInsertedPKs`. -/
theorem c7_auto_increment_spec_witness :
    (UpsertIntoStmt.compileUsing ⟨true, ["id", "name"], [[.constV (.num 5), .constV (.varchar "x")]]⟩
      tblA [] emptyStore = .error .ErrNoValueForAutoIncrementalColumn) ∧
    ∃ (S : TxSummary) (mpk : Int),
      UpsertIntoStmt.compileUsing
        ⟨true, ["name"], [[.constV (.varchar "alice")], [.constV (.varchar "bob")]]⟩
        tblA [] emptyStore = .ok (S, mpk) ∧
      mpk = tblA.maxPK + 2 ∧
      List.lookup tblA.name S.lastInsertedPKs = some (tblA.maxPK + 2) := by
  constructor
  · exact c7_auto_increment_spec.1
      ⟨true, ["id", "name"], [[.constV (.num 5), .constV (.varchar "x")]]⟩ tblA [] emptyStore
      [(1, 0), (2, 1)] [.constV (.num 5), .constV (.varchar "x")] [] rfl (by rfl) rfl rfl
      (by decide)
      (by
        intro v hv
        fin_cases hv
        · exact ⟨.num 5, rfl, rfl⟩
        · exact ⟨.varchar "x", rfl, rfl⟩)
      ⟨cIdA, by simp [tblA], rfl, by rfl⟩
      (by
        intro col hc hn
        fin_cases hc <;> simp [cIdA, cName] at hn)
  · have hex : ∃ out, UpsertIntoStmt.compileUsing
        ⟨true, ["name"], [[.constV (.varchar "alice")], [.constV (.varchar "bob")]]⟩
        tblA [] emptyStore = .ok out := ⟨_, by with_unfolding_all rfl⟩
    obtain ⟨⟨S, mpk⟩, hout⟩ := hex
    obtain ⟨hm, hl⟩ := c7_auto_increment_spec.2.1
      ⟨true, ["name"], [[.constV (.varchar "alice")], [.constV (.varchar "bob")]]⟩
      tblA [] emptyStore S mpk rfl rfl hout
    refine ⟨S, mpk, hout, by simpa using hm, ?_⟩
    have := hl (by simp)
    simpa using this

theorem lookup_append_of_none {α β : Type} [BEq α] [LawfulBEq α] (m₁ m₂ : List (α × β)) (k : α)
    (h : List.lookup k m₁ = none) : List.lookup k (m₁ ++ m₂) = List.lookup k m₂ := by
  induction m₁ with
  | nil => simp
  | cons p t ih =>
      by_cases hk : p.1 = k
      · exfalso
        obtain ⟨a, b⟩ := p
        subst hk
        rw [lookup_cons_eq] at h
        cases h
      · rw [List.cons_append, lookup_cons_ne k p _ hk]
        rw [lookup_cons_ne k p t hk] at h
        exact ih h

theorem lookup_append_of_some {α β : Type} [BEq α] [LawfulBEq α] (m₁ m₂ : List (α × β)) (k : α)
    (r : β) (h : List.lookup k m₁ = some r) : List.lookup k (m₁ ++ m₂) = some r := by
  induction m₁ with
  | nil => simp [List.lookup] at h
  | cons p t ih =>
      by_cases hk : p.1 = k
      · obtain ⟨a, b⟩ := p
        subst hk
        rw [lookup_cons_eq] at h
        rw [List.cons_append, lookup_cons_eq]
        exact h
      · rw [List.cons_append, lookup_cons_ne k p _ hk]
        rw [lookup_cons_ne k p t hk] at h
        exact ih h

theorem lookup_append_single_ne {β : Type} (m : List (Nat × β)) (k c : Nat) (r : β)
    (h : k ≠ c) : List.lookup k (m ++ [(c, r)]) = List.lookup k m := by
  cases hm : List.lookup k m with
  | none =>
      rw [lookup_append_of_none m _ k hm, lookup_cons_ne k (c, r) [] (fun hc => h hc.symm)]
      rfl
  | some v => exact lookup_append_of_some m _ k v hm

theorem lookup_none_of_not_mem {β : Type} (k : Nat) :
    ∀ l : List (Nat × β), k ∉ l.map Prod.fst → List.lookup k l = none := by
  intro l
  induction l with
  | nil => intro _; rfl
  | cons p t ih =>
      intro h
      have hk : ¬p.1 = k := fun hc => h (by simp [hc.symm])
      rw [lookup_cons_ne k p t hk]
      exact ih (fun hc => h (by simp [hc]))

theorem rmSet_of_lookup_none (m : RangeMap) (c : Nat) (r : typedValueRange)
    (h : List.lookup c m = none) : rmSet m c r = m ++ [(c, r)] := by
  rw [rmSet, if_neg]
  simp [h]

theorem orMerge_lookup (rR : RangeMap) :
    ∀ (lR m M : RangeMap),
      (lR.map Prod.fst).Nodup →
      (∀ k : Nat, (List.lookup k lR).isSome = true → List.lookup k m = none) →
      orMerge m lR rR = .ok M →
      ∀ (colID : Nat) (rng : typedValueRange),
        List.lookup colID M = some rng ↔
          ((List.lookup colID lR = none ∨ List.lookup colID rR = none) ∧
            List.lookup colID m = some rng) ∨
          (∃ lr rr, List.lookup colID lR = some lr ∧ List.lookup colID rR = some rr ∧
            typedValueRange.extendWith lr rr = .ok rng) := by
  intro lR
  induction lR with
  | nil =>
      intro m M hnd hdisj h colID rng
      rw [orMerge] at h
      have hM : M = m := (Except.ok.inj h).symm
      subst hM
      simp [List.lookup]
  | cons p rest ih =>
      intro m M hnd hdisj h colID rng
      obtain ⟨c, lr0⟩ := p
      have hndr : (rest.map Prod.fst).Nodup := (List.nodup_cons.mp hnd).2
      have hcnot : c ∉ rest.map Prod.fst := (List.nodup_cons.mp hnd).1
      have hrestc : List.lookup c rest = none := lookup_none_of_not_mem c rest hcnot
      rw [orMerge] at h
      cases hrc : List.lookup c rR with
      | none =>
          simp only [hrc] at h
          have hdisj2 : ∀ k : Nat, (List.lookup k rest).isSome = true → List.lookup k m = none := by
            intro k hk
            by_cases hkc : k = c
            · subst hkc
              rw [hrestc] at hk
              cases hk
            · apply hdisj k
              rw [lookup_cons_ne k (c, lr0) rest (fun hc => hkc hc.symm)]
              exact hk
          have hiff := ih m M hndr hdisj2 h colID rng
          by_cases hkc : colID = c
          · subst hkc
            rw [hiff, lookup_cons_eq, hrestc]
            constructor
            · rintro (⟨_, hm⟩ | ⟨lr, rr, hl, _⟩)
              · exact Or.inl ⟨Or.inr hrc, hm⟩
              · cases hl
            · rintro (⟨_, hm⟩ | ⟨lr, rr, _, hr2, _⟩)
              · exact Or.inl ⟨Or.inl rfl, hm⟩
              · rw [hrc] at hr2
                cases hr2
          · rw [lookup_cons_ne colID (c, lr0) rest (fun hc => hkc hc.symm)]
            exact hiff
      | some rr0 =>
          simp only [hrc] at h
          cases hext : typedValueRange.extendWith lr0 rr0 with
          | error e =>
              simp only [hext, except_bind_error] at h
              cases h
          | ok merged =>
              simp only [hext, except_bind_ok] at h
              have hmc : List.lookup c m = none := by
                apply hdisj c
                rw [lookup_cons_eq]
                rfl
              have hrm : rmSet m c merged = m ++ [(c, merged)] :=
                rmSet_of_lookup_none m c merged hmc
              rw [hrm] at h
              have hdisj2 : ∀ k : Nat, (List.lookup k rest).isSome = true →
                  List.lookup k (m ++ [(c, merged)]) = none := by
                intro k hk
                have hkc : k ≠ c := by
                  intro hc
                  subst hc
                  rw [hrestc] at hk
                  cases hk
                rw [lookup_append_single_ne m k c merged hkc]
                apply hdisj k
                rw [lookup_cons_ne k (c, lr0) rest (fun hc => hkc hc.symm)]
                exact hk
              have hiff := ih (m ++ [(c, merged)]) M hndr hdisj2 h colID rng
              by_cases hkc : colID = c
              · subst hkc
                have hmm : List.lookup colID (m ++ [(colID, merged)]) = some merged := by
                  rw [lookup_append_of_none m _ colID hmc, lookup_cons_eq]
                rw [hiff, lookup_cons_eq, hrestc, hmm, hrc]
                constructor
                · rintro (⟨_, hm⟩ | ⟨lr, rr, hl, _⟩)
                  · refine Or.inr ⟨lr0, rr0, rfl, rfl, ?_⟩
                    rw [hext, Option.some.inj hm]
                  · cases hl
                · rintro (⟨hor, hm⟩ | ⟨lr, rr, hl, hr2, hex2⟩)
                  · rcases hor with h1 | h1 <;> cases h1
                  · refine Or.inl ⟨Or.inl rfl, ?_⟩
                    have hlr : lr = lr0 := (Option.some.inj hl).symm
                    have hrr : rr = rr0 := (Option.some.inj hr2).symm
                    subst hlr
                    subst hrr
                    rw [hext] at hex2
                    rw [Except.ok.inj hex2]
              · rw [lookup_cons_ne colID (c, lr0) rest (fun hc => hkc hc.symm)]
                rw [hiff, lookup_append_single_ne m colID c merged hkc]

theorem selectorRanges_cmp_matching (table : Table) (params : List (String × TV))
    (op : CmpOperator) (col : String) (v : TV) (column : Column) (m : RangeMap)
    (hcol : table.GetColumnByName col = .ok column) :
    ValueExp.selectorRanges table table.name params
        (.cmpE op (.colSel "" "" col) (.constV v)) m =
      updateRangeFor column.id v op m := by
  rw [ValueExp.selectorRanges]
  simp only [cmpMatching, ValueExp.isConstant, Option.orElse, if_true]
  rw [if_neg (by simp)]
  rw [hcol]
  simp only [ValueExp.substitute]
  simp only [ValueExp.reduce, except_bind_ok]

theorem updateRangeFor_ne (colID : Nat) (v : TV) (m : RangeMap) :
    updateRangeFor colID v .NE m = .ok m := rfl

theorem bind_updateRangeFor_ne (x : Except Err TV) (colID : Nat) (m m' : RangeMap)
    (h : (do let rval ← x; updateRangeFor colID rval .NE m) = .ok m') : m' = m := by
  cases x with
  | error e =>
      simp only [except_bind_error] at h
      cases h
  | ok v =>
      simp only [except_bind_ok] at h
      rw [updateRangeFor_ne] at h
      exact (Except.ok.inj h).symm

theorem selectorRanges_ne (table : Table) (asTable : String) (params : List (String × TV))
    (l r : ValueExp) (m m' : RangeMap)
    (h : ValueExp.selectorRanges table asTable params (.cmpE .NE l r) m = .ok m') :
    m' = m := by
  rw [ValueExp.selectorRanges] at h
  cases hm : (cmpMatching l r l r).orElse (fun _ => cmpMatching l r r l) with
  | none =>
      simp only [hm] at h
      exact (Except.ok.inj h).symm
  | some pc =>
      obtain ⟨⟨sdb, st, scol⟩, c⟩ := pc
      simp only [hm] at h
      repeat' split at h
      all_goals first
        | exact (Except.ok.inj h).symm
        | cases h
        | exact bind_updateRangeFor_ne _ _ _ _ h

theorem updateRangeFor_absent (colID : Nat) (v : TV) (op : CmpOperator) (m : RangeMap)
    (nr : typedValueRange) (hnr : rangeForCmp op v = some nr)
    (hnone : List.lookup colID m = none) :
    updateRangeFor colID v op m = .ok (m ++ [(colID, nr)]) := by
  rw [updateRangeFor]
  simp only [hnr, hnone]

theorem updateRangeFor_present (colID : Nat) (v : TV) (op : CmpOperator) (m : RangeMap)
    (nr cur : typedValueRange) (hnr : rangeForCmp op v = some nr)
    (hcur : List.lookup colID m = some cur) :
    updateRangeFor colID v op m = (cur.refineWith nr).map (rmSet m colID) := by
  rw [updateRangeFor]
  simp only [hnr, hcur]
  cases hext : cur.refineWith nr <;> rfl

set_option maxRecDepth 10000 in
/-- C5 (counterexample): for `id > 10 AND (id < 5 OR id < 3)` the ranges
derived from the two conjuncts are `(10,_)` and `(_,5)`, whose column-wise
intersection (`refineWith`) keeps the low bound `10`; but the compiled
result of the conjunction is just `(_,5)`: the `OR` merge loop writes the
merged range back over the accumulated one instead of refining it, so
`AND` does not intersect the ranges derived from each side column-wise. -/
theorem c5_counterexample :
    ValueExp.selectorRanges tblT "t" []
        (.cmpE .GT (.colSel "" "" "id") (.constV (.num 10))) [] =
      .ok [(1, { lRange := some { val := .num 10, inclusive := false }, hRange := none })] ∧
    ValueExp.selectorRanges tblT "t" []
        (.binE .OR (.cmpE .LT (.colSel "" "" "id") (.constV (.num 5)))
                   (.cmpE .LT (.colSel "" "" "id") (.constV (.num 3)))) [] =
      .ok [(1, { lRange := none, hRange := some { val := .num 5, inclusive := false } })] ∧
    typedValueRange.refineWith
        { lRange := some { val := .num 10, inclusive := false }, hRange := none }
        { lRange := none, hRange := some { val := .num 5, inclusive := false } } =
      .ok { lRange := some { val := .num 10, inclusive := false },
            hRange := some { val := .num 5, inclusive := false } } ∧
    ValueExp.selectorRanges tblT "t" []
        (.binE .AND (.cmpE .GT (.colSel "" "" "id") (.constV (.num 10)))
          (.binE .OR (.cmpE .LT (.colSel "" "" "id") (.constV (.num 5)))
                     (.cmpE .LT (.colSel "" "" "id") (.constV (.num 3))))) [] =
      .ok [(1, { lRange := none, hRange := some { val := .num 5, inclusive := false } })] :=
  ⟨rfl, rfl, rfl, rfl⟩

/-- C5 (amended): operational characterization of `selectorRanges`.
(a) `AND` threads the accumulated range map through both sides, so
(b,c,d) each comparison matching `column op constant` contributes through
`updateRangeFor`, which refines (intersects, via `refineWith`) any range
already recorded for the column, appends a fresh range otherwise, and for
`!=` contributes nothing; (e) a `!=` comparison never changes the map;
(f) `OR` derives each side's ranges from an empty map and unions
(`extendWith`) them per column, dropping every column that appears in the
ranges of only one side. -/
theorem c5_amended_selector_ranges :
    (∀ (table : Table) (asTable : String) (params : List (String × TV))
       (l r : ValueExp) (m : RangeMap),
      ValueExp.selectorRanges table asTable params (.binE .AND l r) m =
        (ValueExp.selectorRanges table asTable params l m).bind
          (fun m1 => ValueExp.selectorRanges table asTable params r m1)) ∧
    (∀ (table : Table) (params : List (String × TV)) (op : CmpOperator) (col : String)
       (v : TV) (column : Column) (m : RangeMap),
      table.GetColumnByName col = .ok column →
      ValueExp.selectorRanges table table.name params
          (.cmpE op (.colSel "" "" col) (.constV v)) m =
        updateRangeFor column.id v op m) ∧
    (∀ (colID : Nat) (v : TV) (m : RangeMap), updateRangeFor colID v .NE m = .ok m) ∧
    (∀ (colID : Nat) (v : TV) (op : CmpOperator) (m : RangeMap) (nr : typedValueRange),
      rangeForCmp op v = some nr →
      (List.lookup colID m = none →
        updateRangeFor colID v op m = .ok (m ++ [(colID, nr)])) ∧
      (∀ cur : typedValueRange, List.lookup colID m = some cur →
        updateRangeFor colID v op m = (cur.refineWith nr).map (rmSet m colID))) ∧
    (∀ (table : Table) (asTable : String) (params : List (String × TV))
       (l r : ValueExp) (m m' : RangeMap),
      ValueExp.selectorRanges table asTable params (.cmpE .NE l r) m = .ok m' → m' = m) ∧
    (∀ (table : Table) (asTable : String) (params : List (String × TV))
       (l r : ValueExp) (lR rR M : RangeMap),
      ValueExp.selectorRanges table asTable params l [] = .ok lR →
      ValueExp.selectorRanges table asTable params r [] = .ok rR →
      (lR.map Prod.fst).Nodup →
      ValueExp.selectorRanges table asTable params (.binE .OR l r) [] = .ok M →
      ∀ (colID : Nat) (rng : typedValueRange),
        List.lookup colID M = some rng ↔
          ∃ lr rr, List.lookup colID lR = some lr ∧ List.lookup colID rR = some rr ∧
            typedValueRange.extendWith lr rr = .ok rng) := by
  refine ⟨fun table asTable params l r m => rfl,
    fun table params op col v column m hcol =>
      selectorRanges_cmp_matching table params op col v column m hcol,
    fun colID v m => updateRangeFor_ne colID v m,
    fun colID v op m nr hnr =>
      ⟨fun hnone => updateRangeFor_absent colID v op m nr hnr hnone,
       fun cur hcur => updateRangeFor_present colID v op m nr cur hnr hcur⟩,
    fun table asTable params l r m m' h => selectorRanges_ne table asTable params l r m m' h,
    fun table asTable params l r lR rR M hl hr hnd h colID rng => ?_⟩
  rw [ValueExp.selectorRanges] at h
  simp only [hl, except_bind_ok, hr] at h
  rw [orMerge_lookup rR lR [] M hnd (fun k _ => rfl) h colID rng]
  simp [List.lookup]

/-- C5 (witness): applying the amended characterization at table `t`:
the comparison `id > 10` contributes through `updateRangeFor` for column
1, and in `id < 5 OR id < 3` column 1 is ranged on both sides, so the OR
result maps it to the `extendWith` union `(_, 5)`. -/
theorem c5_amended_selector_ranges_witness :
    (ValueExp.selectorRanges tblT tblT.name []
        (.cmpE .GT (.colSel "" "" "id") (.constV (.num 10))) [] =
      updateRangeFor cId.id (.num 10) .GT []) ∧
    List.lookup 1
        [(1, ({ lRange := none, hRange := some { val := TV.num 5, inclusive := false } } : typedValueRange))] =
      some { lRange := none, hRange := some { val := TV.num 5, inclusive := false } } := by
  refine ⟨c5_amended_selector_ranges.2.1 tblT [] .GT "id" (.num 10) cId [] rfl, ?_⟩
  exact (c5_amended_selector_ranges.2.2.2.2.2 tblT "t" []
      (.cmpE .LT (.colSel "" "" "id") (.constV (.num 5)))
      (.cmpE .LT (.colSel "" "" "id") (.constV (.num 3)))
      [(1, { lRange := none, hRange := some { val := TV.num 5, inclusive := false } })]
      [(1, { lRange := none, hRange := some { val := TV.num 3, inclusive := false } })]
      [(1, { lRange := none, hRange := some { val := TV.num 5, inclusive := false } })]
      rfl rfl (by decide) rfl 1
      { lRange := none, hRange := some { val := TV.num 5, inclusive := false } }).mpr
    ⟨{ lRange := none, hRange := some { val := TV.num 5, inclusive := false } },
     { lRange := none, hRange := some { val := TV.num 3, inclusive := false } }, rfl, rfl, rfl⟩

end ImmuSql
